import Mathlib

set_option maxRecDepth 100000

/-!
# Verification of llvm-profparser against its specification

A shallow embedding of the profile/coverage decoding and merging engine of
the `llvm-profparser` crate.  Rust types are translated as follows:

* `u64`/`u32`/`u16`/`u8`/`usize` become `Nat`, with wrap-around written
  explicitly (`% 2 ^ 64` etc.) at the operations where the Rust code can
  overflow (release-profile semantics: unchecked integer arithmetic wraps).
* `i64` becomes `Int` together with explicit two's-complement wrapping at
  each arithmetic operation.
* Rust `String` and `&[u8]` become `List Nat` (the UTF-8 bytes); `PathBuf`
  likewise holds its byte representation.
* fallible parsing (`nom`'s `IResult`) becomes a result type with an
  explicit distinction between parse errors and Rust panics
  (`assert!` / `todo!` / `unreachable!` / slice out of bounds).
* The external MD5 collaborator (the `md5` crate) is implemented in full,
  since several properties depend on concrete digests.
* The external deflate decoder is a parameter of the functions that use it.

All definitions are executable and structurally recursive so that concrete
witnesses evaluate by `decide` / `rfl`.
-/

namespace LPP

/-- Bytes of a Rust `&[u8]`, `Vec<u8>` or (UTF-8 contents of a) `String`. -/
abbrev Bytes := List Nat

/-- `u64::MAX`. -/
def u64Max : Nat := 2 ^ 64 - 1

/-- `usize::MAX` (the crate targets 64-bit platforms). -/
def usizeMax : Nat := 2 ^ 64 - 1

/-- `u64` saturating/checked addition as used by the merge code:
`checked_add` with `None` replaced by `u64::MAX`. -/
def satAdd64 (a b : Nat) : Nat := if a + b ≤ u64Max then a + b else u64Max

/-- `usize::saturating_add`. -/
def satAddUsize (a b : Nat) : Nat := if a + b ≤ usizeMax then a + b else usizeMax

/-- Wrapping `usize` subtraction (release-profile semantics of `a - b`). -/
def wsub (a b : Nat) : Nat := (a + 2 ^ 64 - b % 2 ^ 64) % 2 ^ 64

/-- Reinterpret a `u64` value as `i64` (the Rust `as i64` cast). -/
def toI64 (n : Nat) : Int :=
  if n % 2 ^ 64 < 2 ^ 63 then (n % 2 ^ 64 : Nat) else (n % 2 ^ 64 : Nat) - (2 ^ 64 : Nat)

/-- Two's-complement wrap of an integer into the `i64` range, applied at
each `i64` arithmetic operation (release-profile wrapping semantics). -/
def wrapI64 (x : Int) : Int := (x + 2 ^ 63) % 2 ^ 64 - 2 ^ 63

/-- `i64` addition. -/
def addI64 (a b : Int) : Int := wrapI64 (a + b)

/-- `i64` subtraction. -/
def subI64 (a b : Int) : Int := wrapI64 (a - b)

/-- The Rust `as usize` cast from `i64` (two's-complement reinterpretation). -/
def i64ToUsize (x : Int) : Nat := (x % 2 ^ 64).toNat

/-- `u64::swap_bytes`. -/
def swapBytes64 (n : Nat) : Nat :=
  let b := fun i => n >>> (8 * i) &&& 255
  b 7 ||| b 6 <<< 8 ||| b 5 <<< 16 ||| b 4 <<< 24 ||| b 3 <<< 32 |||
    b 2 <<< 40 ||| b 1 <<< 48 ||| b 0 <<< 56

/-- `u64::from_le_bytes` on (at least) 8 bytes. -/
def u64FromLeBytes (bs : Bytes) : Nat :=
  match bs with
  | b0 :: b1 :: b2 :: b3 :: b4 :: b5 :: b6 :: b7 :: _ =>
    b0 ||| b1 <<< 8 ||| b2 <<< 16 ||| b3 <<< 24 ||| b4 <<< 32 ||| b5 <<< 40 |||
      b6 <<< 48 ||| b7 <<< 56
  | _ => 0

/-- Endianness of a profile or object file (`nom::number::Endianness` /
`object::Endianness`; the crate never uses native endianness). -/
inductive Endianness where
  | little
  | big
  deriving DecidableEq, Repr

/-- Outcome of a fallible Rust computation: success, a recoverable parse
error (`nom::Err`), or a panic (`assert!`, `todo!`, `unreachable!`,
out-of-bounds indexing, arithmetic overflow in a checked build). -/
inductive RRes (α : Type) where
  | ok (value : α)
  | err
  | panic
  deriving Repr, DecidableEq

namespace RRes

/-- Monadic bind: `?` propagation of errors and panics. -/
def bind {α β : Type} : RRes α → (α → RRes β) → RRes β
  | ok a, f => f a
  | err, _ => err
  | panic, _ => panic

end RRes

instance : Monad RRes where
  pure := RRes.ok
  bind := RRes.bind

/-- Read `n` bytes from the front (`nom::bytes::complete::take`). -/
def takeBytes (n : Nat) (bs : Bytes) : RRes (Bytes × Bytes) :=
  if n ≤ bs.length then .ok (bs.take n, bs.drop n) else .err

/-- Read a little-endian `u64` (`nom::number::le_u64` and friends). -/
def readU64le (bs : Bytes) : RRes (Nat × Bytes) :=
  match bs with
  | b0 :: b1 :: b2 :: b3 :: b4 :: b5 :: b6 :: b7 :: rest =>
    .ok (b0 ||| b1 <<< 8 ||| b2 <<< 16 ||| b3 <<< 24 ||| b4 <<< 32 ||| b5 <<< 40 |||
      b6 <<< 48 ||| b7 <<< 56, rest)
  | _ => .err

/-- Read a big-endian `u64`. -/
def readU64be (bs : Bytes) : RRes (Nat × Bytes) :=
  match bs with
  | b0 :: b1 :: b2 :: b3 :: b4 :: b5 :: b6 :: b7 :: rest =>
    .ok (b7 ||| b6 <<< 8 ||| b5 <<< 16 ||| b4 <<< 24 ||| b3 <<< 32 ||| b2 <<< 40 |||
      b1 <<< 48 ||| b0 <<< 56, rest)
  | _ => .err

/-- Endianness-dispatched `u64` read (`nom_u64(endianness)`). -/
def readU64 (e : Endianness) (bs : Bytes) : RRes (Nat × Bytes) :=
  match e with
  | .little => readU64le bs
  | .big => readU64be bs

/-- Endianness-dispatched `u32` read. -/
def readU32 (e : Endianness) (bs : Bytes) : RRes (Nat × Bytes) :=
  match bs with
  | b0 :: b1 :: b2 :: b3 :: rest =>
    match e with
    | .little => .ok (b0 ||| b1 <<< 8 ||| b2 <<< 16 ||| b3 <<< 24, rest)
    | .big => .ok (b3 ||| b2 <<< 8 ||| b1 <<< 16 ||| b0 <<< 24, rest)
  | _ => .err

/-- Endianness-dispatched `u16` read. -/
def readU16 (e : Endianness) (bs : Bytes) : RRes (Nat × Bytes) :=
  match bs with
  | b0 :: b1 :: rest =>
    match e with
    | .little => .ok (b0 ||| b1 <<< 8, rest)
    | .big => .ok (b1 ||| b0 <<< 8, rest)
  | _ => .err

/-- Inner loop of `leb128::read::unsigned` after an overflow was detected:
skip the remaining continuation bytes, then fail. -/
def leb128SkipOverflow : Bytes → RRes (Nat × Bytes)
  | [] => .err
  | b :: rest => if b &&& 0x80 ≠ 0 then leb128SkipOverflow rest else .err

/-- `leb128::read::unsigned` (used by `parse_leb128` in `util.rs`): reads
7-bit groups, least significant first, failing with overflow past 64 bits
or end-of-input on truncation.  Both failures surface as `nom` errors. -/
def leb128Read (shift : Nat) : Bytes → RRes (Nat × Bytes)
  | [] => .err
  | b :: rest =>
    if shift == 63 && b ≠ 0x00 && b ≠ 0x01 then
      leb128SkipOverflow (b :: rest)
    else
      let lowBits := (b &&& 0x7f) <<< shift
      if b &&& 0x80 == 0 then .ok (lowBits, rest)
      else
        match leb128Read (shift + 7) rest with
        | .ok (hi, rest') => .ok (lowBits ||| hi, rest')
        | e => e

/-- `parse_leb128` from `util.rs`. -/
def parseLeb128 (bs : Bytes) : RRes (Nat × Bytes) := leb128Read 0 bs

/-! ## MD5 (external collaborator, `md5` crate)

The spec (§6) delegates MD5: "exact 16-byte digest of an arbitrary byte
slice".  The full algorithm is implemented here because symbol-table
properties depend on concrete digests. -/

/-- MD5 per-round shift amounts. -/
def md5S : List Nat :=
  [7, 12, 17, 22, 7, 12, 17, 22, 7, 12, 17, 22, 7, 12, 17, 22,
   5, 9, 14, 20, 5, 9, 14, 20, 5, 9, 14, 20, 5, 9, 14, 20,
   4, 11, 16, 23, 4, 11, 16, 23, 4, 11, 16, 23, 4, 11, 16, 23,
   6, 10, 15, 21, 6, 10, 15, 21, 6, 10, 15, 21, 6, 10, 15, 21]

/-- MD5 round constants `⌊2³² · |sin(i+1)|⌋`. -/
def md5K : List Nat :=
  [3614090360, 3905402710, 606105819, 3250441966, 4118548399, 1200080426,
   2821735955, 4249261313, 1770035416, 2336552879, 4294925233, 2304563134,
   1804603682, 4254626195, 2792965006, 1236535329, 4129170786, 3225465664,
   643717713, 3921069994, 3593408605, 38016083, 3634488961, 3889429448,
   568446438, 3275163606, 4107603335, 1163531501, 2850285829, 4243563512,
   1735328473, 2368359562, 4294588738, 2272392833, 1839030562, 4259657740,
   2763975236, 1272893353, 4139469664, 3200236656, 681279174, 3936430074,
   3572445317, 76029189, 3654602809, 3873151461, 530742520, 3299628645,
   4096336452, 1126891415, 2878612391, 4237533241, 1700485571, 2399980690,
   4293915773, 2240044497, 1873313359, 4264355552, 2734768916, 1309151649,
   4149444226, 3174756917, 718787259, 3951481745]

/-- 32-bit left rotation. -/
def rotl32 (x s : Nat) : Nat := (x <<< s ||| x >>> (32 - s)) &&& 0xffffffff

/-- Little-endian 32-bit words of one 64-byte block. -/
def md5Words (block : Bytes) : List Nat :=
  (List.range 16).map fun i =>
    (block.getD (4 * i) 0) ||| (block.getD (4 * i + 1) 0) <<< 8 |||
      (block.getD (4 * i + 2) 0) <<< 16 ||| (block.getD (4 * i + 3) 0) <<< 24

/-- One MD5 round. -/
def md5Round (m : List Nat) (st : Nat × Nat × Nat × Nat) (i : Nat) :
    Nat × Nat × Nat × Nat :=
  let (a, b, c, d) := st
  let not32 := fun x => 0xffffffff ^^^ x
  let (f, g) :=
    if i < 16 then ((b &&& c) ||| (not32 b &&& d), i)
    else if i < 32 then ((d &&& b) ||| (not32 d &&& c), (5 * i + 1) % 16)
    else if i < 48 then (b ^^^ c ^^^ d, (3 * i + 5) % 16)
    else (c ^^^ (b ||| not32 d), (7 * i) % 16)
  let sum := (a + f + md5K.getD i 0 + m.getD g 0) % 2 ^ 32
  (d, (b + rotl32 sum (md5S.getD i 0)) % 2 ^ 32, b, c)

/-- Process one 64-byte block. -/
def md5Block (st : Nat × Nat × Nat × Nat) (block : Bytes) :
    Nat × Nat × Nat × Nat :=
  let (a0, b0, c0, d0) := st
  let (a, b, c, d) := (List.range 64).foldl (md5Round (md5Words block)) st
  ((a0 + a) % 2 ^ 32, (b0 + b) % 2 ^ 32, (c0 + c) % 2 ^ 32, (d0 + d) % 2 ^ 32)

/-- Process the padded message, 64 bytes at a time (fuel = block count). -/
def md5Blocks : Nat → (Nat × Nat × Nat × Nat) → Bytes → Nat × Nat × Nat × Nat
  | 0, st, _ => st
  | fuel + 1, st, bs =>
    match bs with
    | [] => st
    | _ => md5Blocks fuel (md5Block st (bs.take 64)) (bs.drop 64)

/-- Little-endian bytes of a 32-bit word. -/
def word32Bytes (w : Nat) : Bytes :=
  [w &&& 255, w >>> 8 &&& 255, w >>> 16 &&& 255, w >>> 24 &&& 255]

/-- MD5 padding: a `0x80` byte, zeros to 56 mod 64, then the bit length as
a little-endian `u64`. -/
def md5Pad (msg : Bytes) : Bytes :=
  let zeros := (64 + 56 - (msg.length + 1) % 64) % 64
  msg ++ 0x80 :: List.replicate zeros 0 ++
    (word32Bytes ((msg.length * 8) % 2 ^ 32) ++
     word32Bytes ((msg.length * 8) / 2 ^ 32 % 2 ^ 32))

/-- `md5::compute`: the 16-byte MD5 digest of a byte string. -/
def md5 (msg : Bytes) : Bytes :=
  let padded := md5Pad msg
  let (a, b, c, d) :=
    md5Blocks (padded.length / 64 + 1)
      (0x67452301, 0xefcdab89, 0x98badcfe, 0x10325476) padded
  word32Bytes a ++ word32Bytes b ++ word32Bytes c ++ word32Bytes d

/-- `u64::from_be_bytes` on the first 8 bytes. -/
def u64FromBeBytes (bs : Bytes) : Nat :=
  match bs with
  | b0 :: b1 :: b2 :: b3 :: b4 :: b5 :: b6 :: b7 :: _ =>
    b7 ||| b6 <<< 8 ||| b5 <<< 16 ||| b4 <<< 24 ||| b3 <<< 32 ||| b2 <<< 40 |||
      b1 <<< 48 ||| b0 <<< 56
  | _ => 0

/-! ## UTF-8 (std collaborators `from_utf8` / `from_utf8_lossy`) -/

/-- Is `b` a UTF-8 continuation byte? -/
def utf8Cont (b : Nat) : Bool := 0x80 ≤ b && b ≤ 0xBF

/-- Decode one well-formed UTF-8 scalar from the front, returning the
number of bytes it occupies. -/
def utf8Step : Bytes → Option Nat
  | [] => none
  | b :: rest =>
    if b ≤ 0x7F then some 1
    else if 0xC2 ≤ b && b ≤ 0xDF then
      match rest with
      | c1 :: _ => if utf8Cont c1 then some 2 else none
      | _ => none
    else if 0xE0 ≤ b && b ≤ 0xEF then
      match rest with
      | c1 :: c2 :: _ =>
        let firstOk :=
          if b = 0xE0 then 0xA0 ≤ c1 && c1 ≤ 0xBF
          else if b = 0xED then 0x80 ≤ c1 && c1 ≤ 0x9F
          else utf8Cont c1
        if firstOk && utf8Cont c2 then some 3 else none
      | _ => none
    else if 0xF0 ≤ b && b ≤ 0xF4 then
      match rest with
      | c1 :: c2 :: c3 :: _ =>
        let firstOk :=
          if b = 0xF0 then 0x90 ≤ c1 && c1 ≤ 0xBF
          else if b = 0xF4 then 0x80 ≤ c1 && c1 ≤ 0x8F
          else utf8Cont c1
        if firstOk && utf8Cont c2 && utf8Cont c3 then some 4 else none
      | _ => none
    else none

/-- Fuelled worker for `utf8Valid` (fuel = input length). -/
def utf8ValidF : Nat → Bytes → Bool
  | _, [] => true
  | 0, _ => false
  | fuel + 1, bs =>
    match utf8Step bs with
    | some k => utf8ValidF fuel (bs.drop k)
    | none => false

/-- Whether a byte string is valid UTF-8 (`std::str::from_utf8` success). -/
def utf8Valid (bs : Bytes) : Bool := utf8ValidF bs.length bs

/-- `String::from_utf8` / `str::from_utf8`: the same bytes on success. -/
def from_utf8 (bs : Bytes) : Option Bytes := if utf8Valid bs then some bs else none

/-- Length of the maximal subpart of an ill-formed sequence (how many
bytes `from_utf8_lossy` replaces with one U+FFFD); at least 1. -/
def utf8BadLen : Bytes → Nat
  | b :: c1 :: c2 :: _ =>
    if 0xE0 ≤ b && b ≤ 0xEF then
      let firstOk :=
        if b = 0xE0 then 0xA0 ≤ c1 && c1 ≤ 0xBF
        else if b = 0xED then 0x80 ≤ c1 && c1 ≤ 0x9F
        else utf8Cont c1
      if firstOk then (if utf8Cont c2 then 2 else 2) else 1
    else if 0xF0 ≤ b && b ≤ 0xF4 then
      let firstOk :=
        if b = 0xF0 then 0x90 ≤ c1 && c1 ≤ 0xBF
        else if b = 0xF4 then 0x80 ≤ c1 && c1 ≤ 0x8F
        else utf8Cont c1
      if firstOk then (if utf8Cont c2 then 3 else 2) else 1
    else 1
  | b :: c1 :: [] =>
    if 0xE0 ≤ b && b ≤ 0xEF then
      let firstOk :=
        if b = 0xE0 then 0xA0 ≤ c1 && c1 ≤ 0xBF
        else if b = 0xED then 0x80 ≤ c1 && c1 ≤ 0x9F
        else utf8Cont c1
      if firstOk then 2 else 1
    else if 0xF0 ≤ b && b ≤ 0xF4 then
      let firstOk :=
        if b = 0xF0 then 0x90 ≤ c1 && c1 ≤ 0xBF
        else if b = 0xF4 then 0x80 ≤ c1 && c1 ≤ 0x8F
        else utf8Cont c1
      if firstOk then 2 else 1
    else 1
  | _ => 1

/-- Fuelled worker for `utf8Lossy`. -/
def utf8LossyF : Nat → Bytes → Bytes
  | _, [] => []
  | 0, _ => []
  | fuel + 1, bs =>
    match utf8Step bs with
    | some k => bs.take k ++ utf8LossyF fuel (bs.drop k)
    | none => [0xEF, 0xBF, 0xBD] ++ utf8LossyF fuel (bs.drop (utf8BadLen bs))

/-- `String::from_utf8_lossy`: ill-formed subsequences become U+FFFD
(whose UTF-8 encoding is `EF BF BD`), maximal-subpart policy. -/
def utf8Lossy (bs : Bytes) : Bytes := utf8LossyF bs.length bs

/-! ## Map models

`HashMap` is modelled as an association list whose `insert` overwrites an
existing binding in place and otherwise appends (lookup-equivalent to the
Rust map; no claim depends on `HashMap` iteration order).  `BTreeMap` is
modelled as an association list kept sorted by key. -/

/-- `HashMap::get`. -/
def alGet {K V : Type} [DecidableEq K] (m : List (K × V)) (k : K) : Option V :=
  (m.find? fun p => decide (p.1 = k)).map (·.2)

/-- `HashMap::insert` (ignoring the returned old value). -/
def alInsert {K V : Type} [DecidableEq K] (m : List (K × V)) (k : K) (v : V) :
    List (K × V) :=
  match m with
  | [] => [(k, v)]
  | (k0, v0) :: rest =>
    if k0 = k then (k, v) :: rest else (k0, v0) :: alInsert rest k v

/-- `BTreeMap::insert` for `u64` keys (sorted association list). -/
def btInsert {V : Type} (m : List (Nat × V)) (k : Nat) (v : V) : List (Nat × V) :=
  match m with
  | [] => [(k, v)]
  | (k0, v0) :: rest =>
    if k < k0 then (k, v) :: (k0, v0) :: rest
    else if k = k0 then (k, v) :: rest
    else (k0, v0) :: btInsert rest k v

/-- `BTreeMap::get` for `u64` keys. -/
def btGet {V : Type} (m : List (Nat × V)) (k : Nat) : Option V := alGet m k

/-- In-place update of the element at an index (`&mut v[i]`); no-op when
out of bounds. -/
def listModify {α : Type} (l : List α) (i : Nat) (f : α → α) : List α :=
  match l, i with
  | [], _ => []
  | x :: rest, 0 => f x :: rest
  | x :: rest, n + 1 => x :: listModify rest n f

/-- `Vec::insert(index, element)`. -/
def listInsertAt {α : Type} (l : List α) (i : Nat) (x : α) : List α :=
  match l, i with
  | l, 0 => x :: l
  | [], _ + 1 => [x]
  | y :: rest, n + 1 => y :: listInsertAt rest n x

/-! ## `instrumentation_profile/types.rs`: the in-memory profile model -/

/-- `~VARIANT_MASKS_ALL & Header.version` is the version number. -/
def VARIANT_MASKS_ALL : Nat := 0xff00000000000000

/-- IR-instrumentation flag bit. -/
def VARIANT_MASK_IR_PROF : Nat := 1 <<< 56

/-- CSIR flag bit. -/
def VARIANT_MASK_CSIR_PROF : Nat := 1 <<< 57

/-- Byte-coverage flag bit. -/
def VARIANT_MASK_BYTE_COVERAGE : Nat := 1 <<< 60

/-- Function-entry-only flag bit. -/
def VARIANT_MASK_FUNCTION_ENTRY_ONLY : Nat := 1 <<< 61

/-- Memory-profile flag bit. -/
def VARIANT_MASK_MEMORY_PROFILE : Nat := 1 <<< 62

/-- `compute_hash`: `u64::from_le_bytes` of the first 8 MD5 bytes. -/
def compute_hash (data : Bytes) : Nat := u64FromLeBytes (md5 data)

/-- `compute_be_hash`: `u64::from_be_bytes` of the first 8 MD5 bytes. -/
def compute_be_hash (data : Bytes) : Nat := u64FromBeBytes (md5 data)

/-- `Symtab`: map from 64-bit truncated-MD5 hashes to function names. -/
structure Symtab where
  names : List (Nat × Bytes)
  deriving DecidableEq, Repr

instance : Inhabited Symtab := ⟨⟨[]⟩⟩

/-- `Symtab::add_func_name`: store under the endianness-dependent
truncated MD5 of the name (little-endian unless told otherwise). -/
def Symtab.add_func_name (self : Symtab) (name : Bytes)
    (endianness : Option Endianness) : Symtab :=
  let hash :=
    match endianness with
    | some .big => compute_be_hash name
    | _ => compute_hash name
  ⟨btInsert self.names hash name⟩

/-- `Symtab::contains`. -/
def Symtab.contains (self : Symtab) (hash : Nat) : Bool :=
  (btGet self.names hash).isSome

/-- `Symtab::get`. -/
def Symtab.get (self : Symtab) (hash : Nat) : Option Bytes :=
  btGet self.names hash

/-- `Symtab::len`. -/
def Symtab.len (self : Symtab) : Nat := self.names.length

/-- `InstrProfValueData`.  Note that the Rust `Eq`/`Ord` instances compare
only the `value` field; comparisons below are written out explicitly. -/
structure InstrProfValueData where
  value : Nat
  count : Nat
  deriving DecidableEq, Repr

/-- `InstrProfValueSiteRecord`. -/
abbrev InstrProfValueSiteRecord := List InstrProfValueData

/-- `ValueProfDataRecord`. -/
structure ValueProfDataRecord where
  indirect_callsites : List InstrProfValueSiteRecord
  mem_op_sizes : List InstrProfValueSiteRecord
  deriving DecidableEq, Repr

instance : Inhabited ValueProfDataRecord := ⟨⟨[], []⟩⟩

/-- `InstrProfRecord` (the `Box` around the value data is erased). -/
structure InstrProfRecord where
  counts : List Nat
  data : Option ValueProfDataRecord
  deriving DecidableEq, Repr

instance : Inhabited InstrProfRecord := ⟨⟨[], none⟩⟩

/-- Insertion sort step by `value` (the `Ord` key of `InstrProfValueData`). -/
def insertByValue (x : InstrProfValueData) :
    InstrProfValueSiteRecord → InstrProfValueSiteRecord
  | [] => [x]
  | y :: rest =>
    if x.value ≤ y.value then x :: y :: rest else y :: insertByValue x rest

/-- `Vec::sort_unstable` with the value-only `Ord`.  (The Rust sort is
unstable, so the order of equal-`value` elements is unspecified; this
model realises one admissible order.) -/
def sortByValue (l : InstrProfValueSiteRecord) : InstrProfValueSiteRecord :=
  l.foldr insertByValue []

/-- `dst.iter_mut().enumerate().skip(i).find(|x| x.1.value >= j.value)`:
the first absolute index `≥ i` whose element's value is `≥ v`. -/
def findFromIdx (l : InstrProfValueSiteRecord) (i v : Nat) :
    Option (Nat × InstrProfValueData) :=
  match l, i with
  | [], _ => none
  | x :: rest, 0 =>
    if v ≤ x.value then some (0, x)
    else (findFromIdx rest 0 v).map fun p => (p.1 + 1, p.2)
  | _ :: rest, n + 1 => (findFromIdx rest n v).map fun p => (p.1 + 1, p.2)

/-- Body of the `for j in src` loop of `merge_site_records`. -/
def mergeSiteStep (st : InstrProfValueSiteRecord × Nat) (j : InstrProfValueData) :
    InstrProfValueSiteRecord × Nat :=
  let (dst, i) := st
  match findFromIdx dst i j.value with
  | some (index, element) =>
    if element.value = j.value then
      let dst := listModify dst index fun e => ⟨e.value, satAdd64 e.count j.count⟩
      (listInsertAt dst (index + 1) j, index + 1)
    else
      (listInsertAt dst index j, index + 1)
  | none => (dst ++ [j], dst.length)

/-- `merge_site_records` from `types.rs`.  (The Rust function also builds
a sorted `other_vals` vector that it never reads; that dead binding is
omitted.) -/
def merge_site_records (dst src : InstrProfValueSiteRecord) :
    InstrProfValueSiteRecord :=
  if dst.length = src.length then
    (src.foldl mergeSiteStep (sortByValue dst, 0)).1
  else dst

/-- `InstrProfRecord::merge`. -/
def InstrProfRecord.merge (self other : InstrProfRecord) : InstrProfRecord :=
  if self.counts.length ≠ other.counts.length then self
  else
    let counts := List.zipWith satAdd64 self.counts other.counts
    let data :=
      match self.data, other.data with
      | some own, some oth =>
        let ic :=
          if own.indirect_callsites.length = oth.indirect_callsites.length then
            List.zipWith merge_site_records own.indirect_callsites oth.indirect_callsites
          else own.indirect_callsites
        let mos :=
          if own.mem_op_sizes.length = oth.mem_op_sizes.length then
            List.zipWith merge_site_records own.mem_op_sizes oth.mem_op_sizes
          else own.mem_op_sizes
        some ⟨ic, mos⟩
      | d, _ => d
    ⟨counts, data⟩

/-- `NamedInstrProfRecord`. -/
structure NamedInstrProfRecord where
  name : Option Bytes
  name_hash : Option Nat
  hash : Option Nat
  record : InstrProfRecord
  deriving DecidableEq, Repr

instance : Inhabited NamedInstrProfRecord := ⟨⟨none, none, none, default⟩⟩

/-- `NamedInstrProfRecord::name_unchecked`. -/
def NamedInstrProfRecord.name_unchecked (self : NamedInstrProfRecord) : Bytes :=
  self.name.getD []

/-- `NamedInstrProfRecords`: the record vector plus its lookup indices. -/
structure NamedInstrProfRecords where
  records : List NamedInstrProfRecord
  by_name : List (Bytes × Nat)
  by_name_hash : List (Nat × Nat)
  by_fn_hash : List (Nat × Nat)
  by_hashes : List ((Nat × Nat) × Nat)
  deriving DecidableEq, Repr

instance : Inhabited NamedInstrProfRecords := ⟨⟨[], [], [], [], []⟩⟩

/-- `NamedInstrProfRecords::push`. -/
def NamedInstrProfRecords.push (self : NamedInstrProfRecords)
    (named_record : NamedInstrProfRecord) : NamedInstrProfRecords :=
  let index := self.records.length
  match named_record.name, named_record.hash with
  | some name, some hash =>
    let name_hash := named_record.name_hash.getD (compute_hash name)
    { records := self.records ++ [named_record]
      by_name := alInsert self.by_name name index
      by_name_hash := alInsert self.by_name_hash name_hash index
      by_fn_hash := alInsert self.by_fn_hash hash index
      by_hashes := alInsert self.by_hashes (name_hash, hash) index }
  | some name, none =>
    let name_hash := named_record.name_hash.getD (compute_hash name)
    { self with
      records := self.records ++ [named_record]
      by_name := alInsert self.by_name name index
      by_name_hash := alInsert self.by_name_hash name_hash index }
  | none, some hash =>
    { self with
      records := self.records ++ [named_record]
      by_fn_hash := alInsert self.by_fn_hash hash index }
  | none, none => { self with records := self.records ++ [named_record] }

/-- Index behind `NamedInstrProfRecords::get_by_name`. -/
def NamedInstrProfRecords.name_index (self : NamedInstrProfRecords)
    (name : Bytes) : Option Nat :=
  alGet self.by_name name

/-- `NamedInstrProfRecords::get_by_name`. -/
def NamedInstrProfRecords.get_by_name (self : NamedInstrProfRecords)
    (name : Bytes) : Option NamedInstrProfRecord :=
  (self.name_index name).bind fun i => self.records.get? i

/-- `InstrumentationProfile` (the `ProfileModel` of the spec). -/
structure InstrumentationProfile where
  version : Option Nat
  has_csir : Bool
  is_ir : Bool
  is_entry_first : Bool
  is_byte_coverage : Bool
  fn_entry_only : Bool
  memory_profiling : Bool
  records : NamedInstrProfRecords
  symtab : Symtab
  deriving DecidableEq, Repr

instance : Inhabited InstrumentationProfile :=
  ⟨⟨none, false, false, false, false, false, false, default, default⟩⟩

/-- The `InstrumentationProfile::default()` value. -/
def defaultProfile : InstrumentationProfile := default

/-- The shared merge-and-report-success step of `merge_record` (mutating
through `get_by_name_mut` and returning the `added` flag). -/
def mergeByName (self : InstrumentationProfile) (name : Bytes)
    (record : NamedInstrProfRecord) : InstrumentationProfile × Bool :=
  match self.records.name_index name with
  | some i =>
    ({ self with
       records :=
         { self.records with
           records :=
             listModify self.records.records i fun rec0 =>
               { rec0 with record := rec0.record.merge record.record } } }, true)
  | none => (self, false)

/-- `InstrumentationProfile::merge_record`. -/
def InstrumentationProfile.merge_record (self : InstrumentationProfile)
    (record : NamedInstrProfRecord) : InstrumentationProfile :=
  match record.name with
  | none => self
  | some name =>
    let hash := compute_hash name
    let (self, added) :=
      if self.symtab.contains hash then mergeByName self name record
      else
        match record.hash with
        | some alt_hash =>
          if self.symtab.contains alt_hash then mergeByName self name record
          else (self, false)
        | none => (self, false)
    if !added then
      { self with
        symtab := ⟨btInsert self.symtab.names hash record.name_unchecked⟩
        records := self.records.push record }
    else self

/-- `InstrumentationProfile::merge`. -/
def InstrumentationProfile.merge (self other : InstrumentationProfile) :
    InstrumentationProfile :=
  let self :=
    if self.version.isNone && other.version.isSome then
      { self with version := other.version }
    else self
  other.records.records.foldl InstrumentationProfile.merge_record self

/-- `InstrumentationProfile::get_record` (lookup by function name). -/
def InstrumentationProfile.get_record (self : InstrumentationProfile)
    (name : Bytes) : Option NamedInstrProfRecord :=
  self.records.get_by_name name

/-! ## `coverage/mod.rs`: the coverage-side data model -/

/-- A `PathBuf`, kept as its byte representation (Unix path semantics). -/
abbrev RPath := Bytes

/-- `Path::is_absolute` on Unix: begins with `/`. -/
def pathIsAbsolute (p : RPath) : Bool :=
  match p with
  | 47 :: _ => true
  | _ => false

/-- `base.join(p)`: an absolute `p` replaces `base`; otherwise `p` is
appended behind a separator. -/
def pathJoin (base p : RPath) : RPath :=
  if pathIsAbsolute p then p
  else if base = [] then p
  else if base.getLast? = some 47 then base ++ p
  else base ++ 47 :: p

/-- `ExprKind`. -/
inductive ExprKind where
  | subtract
  | add
  deriving DecidableEq, Repr

/-- `RegionKind`. -/
inductive RegionKind where
  | code
  | expansion
  | skipped
  | gap
  | branch
  deriving DecidableEq, Repr

/-- `RegionKind::try_from(u64)`. -/
def regionKindOfNat (v : Nat) : Option RegionKind :=
  match v with
  | 0 => some .code
  | 1 => some .expansion
  | 2 => some .skipped
  | 3 => some .gap
  | 4 => some .branch
  | _ => none

/-- `CounterType`. -/
inductive CounterType where
  | zero
  | profileInstrumentation
  | expression (kind : ExprKind)
  deriving DecidableEq, Repr

/-- `Counter`. -/
structure Counter where
  kind : CounterType
  id : Nat
  deriving DecidableEq, Repr

/-- `Counter::default()`. -/
instance : Inhabited Counter := ⟨⟨.zero, 0⟩⟩

/-- `Counter::instrumentation`. -/
def Counter.instrumentation (id : Nat) : Counter := ⟨.profileInstrumentation, id⟩

/-- `Counter::is_expression`. -/
def Counter.is_expression (self : Counter) : Bool :=
  match self.kind with
  | .expression _ => true
  | _ => false

/-- `Counter::is_instrumentation`. -/
def Counter.is_instrumentation (self : Counter) : Bool :=
  self.kind = CounterType.profileInstrumentation

/-- `Counter::is_zero`. -/
def Counter.is_zero (self : Counter) : Bool := self.kind = CounterType.zero

/-- `Counter::ENCODING_TAG_MASK`. -/
def ENCODING_TAG_MASK : Nat := 3

/-- `Counter::ENCODING_TAG_AND_EXP_REGION_BITS`. -/
def ENCODING_TAG_AND_EXP_REGION_BITS : Nat := 3

/-- `Counter::ENCODING_EXPANSION_REGION_BIT`. -/
def ENCODING_EXPANSION_REGION_BIT : Nat := 4

/-- `Expression`. -/
structure Expression where
  kind : ExprKind
  lhs : Counter
  rhs : Counter
  deriving DecidableEq, Repr

/-- `Expression::default()`: `(Subtract, Zero, Zero)`. -/
instance : Inhabited Expression := ⟨⟨.subtract, default, default⟩⟩

/-- `Expression::set_kind`. -/
def Expression.set_kind (self : Expression) (kind : ExprKind) : Expression :=
  { self with kind := kind }

/-- `SourceLocation` (inclusive ends). -/
structure SourceLocation where
  line_start : Nat
  column_start : Nat
  line_end : Nat
  column_end : Nat
  deriving DecidableEq, Repr

/-- `CounterMappingRegion`. -/
structure CounterMappingRegion where
  kind : RegionKind
  count : Counter
  false_count : Counter
  file_id : Nat
  expanded_file_id : Nat
  loc : SourceLocation
  deriving DecidableEq, Repr

/-- `FunctionRecordHeader`. -/
structure FunctionRecordHeader where
  name_hash : Nat
  data_len : Nat
  fn_hash : Nat
  filenames_ref : Nat
  deriving DecidableEq, Repr

/-- `FunctionRecordV3`. -/
structure FunctionRecordV3 where
  header : FunctionRecordHeader
  regions : List CounterMappingRegion
  expressions : List Expression
  deriving DecidableEq, Repr

/-- `ProfileData` (coverage side, `coverage/mod.rs`). -/
structure CovProfileData where
  name_md5 : Nat
  structural_hash : Nat
  counters_len : Nat
  deriving DecidableEq, Repr

/-- `CoverageMappingInfo`. -/
structure CoverageMappingInfo where
  cov_map : List (Nat × List RPath)
  cov_fun : List FunctionRecordV3
  prof_counts : Option (List Nat)
  prof_data : Option (List CovProfileData)
  deriving DecidableEq, Repr

/-- Loop body of `CoverageMappingInfo::get_files_from_id`. -/
def filesStep (st : List RPath × Option RPath) (path : RPath) :
    List RPath × Option RPath :=
  let (paths, last_absolute) := st
  if pathIsAbsolute path then
    let last_absolute := if last_absolute.isNone then some path else last_absolute
    (paths ++ [path], last_absolute)
  else
    let base := last_absolute.getD []
    (paths ++ [pathJoin base path], last_absolute)

/-- `CoverageMappingInfo::get_files_from_id`. -/
def CoverageMappingInfo.get_files_from_id (self : CoverageMappingInfo)
    (id : Nat) : List RPath :=
  match alGet self.cov_map id with
  | some v => (v.foldl filesStep ([], none)).1
  | none => []

/-! ## `coverage/reporting.rs`: report containers and path remapping -/

/-- `CoverageResult`: per-file map from source range to hit count.  The
`BTreeMap` is modelled as an association list (no settled claim depends on
its iteration order). -/
structure CoverageResult where
  hits : List (SourceLocation × Nat)
  deriving DecidableEq, Repr

instance : Inhabited CoverageResult := ⟨⟨[]⟩⟩

/-- Worker for `CoverageResult::insert`: saturating-add on the matching
range, plain append otherwise. -/
def hitsInsert (loc : SourceLocation) (count : Nat) :
    List (SourceLocation × Nat) → List (SourceLocation × Nat)
  | [] => [(loc, count)]
  | (l, c) :: rest =>
    if l = loc then (l, satAddUsize c count) :: rest
    else (l, c) :: hitsInsert loc count rest

/-- `CoverageResult::insert`: saturating-add on an existing range,
plain insert otherwise. -/
def CoverageResult.insert (self : CoverageResult) (loc : SourceLocation)
    (count : Nat) : CoverageResult :=
  ⟨hitsInsert loc count self.hits⟩

/-- `CoverageReport`. -/
structure CoverageReport where
  files : List (RPath × CoverageResult)
  deriving DecidableEq, Repr

instance : Inhabited CoverageReport := ⟨⟨[]⟩⟩

/-- Worker for the report's `entry(path).or_default().insert(..)`. -/
def filesInsert (path : RPath) (loc : SourceLocation) (count : Nat) :
    List (RPath × CoverageResult) → List (RPath × CoverageResult)
  | [] => [(path, CoverageResult.insert ⟨[]⟩ loc count)]
  | (p, r) :: rest =>
    if p = path then (p, r.insert loc count) :: rest
    else (p, r) :: filesInsert path loc count rest

/-- `report.files.entry(path).or_default().insert(loc, count)`. -/
def CoverageReport.insertHit (self : CoverageReport) (path : RPath)
    (loc : SourceLocation) (count : Nat) : CoverageReport :=
  ⟨filesInsert path loc count self.files⟩

/-- Lookup of a file's result in a report. -/
def CoverageReport.getFile (self : CoverageReport) (path : RPath) :
    Option CoverageResult :=
  (self.files.find? fun p => decide (p.1 = path)).map (·.2)

/-- Lookup of one source range's count in a report. -/
def reportHit (report : CoverageReport) (path : RPath)
    (loc : SourceLocation) : Option Nat :=
  (report.getFile path).bind fun r =>
    (r.hits.find? fun p => decide (p.1 = loc)).map (·.2)

/-- `RemappingParseError`. -/
inductive RemappingParseError where
  | emptyRemapping
  | missingSourcePath
  | missingDestinationPath
  | tooManyPaths
  deriving DecidableEq, Repr

/-- `PathRemapping`. -/
structure PathRemapping where
  source : RPath
  dest : RPath
  deriving DecidableEq, Repr

/-- `str::split(",")` (a comma-free string yields one piece; the empty
string yields one empty piece). -/
def splitComma : Bytes → List Bytes
  | [] => [[]]
  | 44 :: rest => [] :: splitComma rest
  | b :: rest =>
    match splitComma rest with
    | t :: ts => (b :: t) :: ts
    | [] => [[b]]

/-- `PathRemapping::from_str`.  The `Err` cases are Rust `Result` values;
`RRes.panic` captures the `paths[1]` index out of bounds. -/
def PathRemapping.from_str (s : Bytes) :
    RRes (Except RemappingParseError PathRemapping) :=
  let paths := splitComma s
  if paths.isEmpty then .ok (.error .emptyRemapping)
  else if paths.length > 2 then .ok (.error .tooManyPaths)
  else if (paths.getD 0 []).isEmpty then .ok (.error .missingSourcePath)
  else
    match paths.get? 1 with
    | none => .panic
    | some p1 =>
      if p1.isEmpty then .ok (.error .missingDestinationPath)
      else .ok (.ok ⟨paths.getD 0 [], p1⟩)

/-! ## `coverage/coverage_mapping.rs`: the counter expression evaluator -/

/-- `CoverageMapping` (the borrowed profile plus the parsed sections). -/
structure CoverageMapping where
  profile : InstrumentationProfile
  mapping_info : List CoverageMappingInfo
  deriving Repr

/-- `CoverageMapping::get_simple_counters`: seed the working map with
`Zero ↦ 0` and the matched record's instrumentation counts. -/
def get_simple_counters (profile : InstrumentationProfile)
    (func : FunctionRecordV3) : List (Counter × Int) :=
  let result : List (Counter × Int) := [(default, 0)]
  let record :=
    profile.records.records.find? fun x =>
      decide (x.hash = some func.header.fn_hash) &&
        decide (some func.header.name_hash = x.name_hash)
  match record with
  | some func_record =>
    (func_record.record.counts.enum.foldl
      (fun acc p => alInsert acc (Counter.instrumentation p.1) (toI64 p.2)) result)
  | none => result

/-- Emission of all non-expression regions (step 2 of the evaluator);
`paths[region.file_id]` panics when the index is out of bounds. -/
def regionPass (paths : List RPath) (region_ids : List (Counter × Int))
    (report : CoverageReport) :
    List CounterMappingRegion → RRes CoverageReport
  | [] => .ok report
  | region :: rest =>
    if region.count.is_expression then regionPass paths region_ids report rest
    else
      let count := (alGet region_ids region.count).getD 0
      match paths.get? region.file_id with
      | some path =>
        regionPass paths region_ids
          (report.insertHit path region.loc (i64ToUsize count)) rest
      | none => .panic

/-- The region lookup made after an expression resolves: the FIRST region
whose counter is an expression with the resolved index. -/
def findExprRegion (regions : List CounterMappingRegion) (expr_index : Nat) :
    Option CounterMappingRegion :=
  regions.find? fun x => x.count.is_expression && decide (x.count.id = expr_index)

/-- Resolution of one expression whose operands are both known: record the
count and emit into the first matching region, if any. -/
def resolveExpr (paths : List RPath) (regions : List CounterMappingRegion)
    (region_ids : List (Counter × Int)) (report : CoverageReport)
    (expr_index : Nat) (expr : Expression) (l r : Int) :
    RRes (List (Counter × Int) × CoverageReport) :=
  let count :=
    match expr.kind with
    | .subtract => subI64 l r
    | .add => addI64 l r
  let counter : Counter := ⟨.expression expr.kind, expr_index⟩
  let region_ids := alInsert region_ids counter count
  match findExprRegion regions expr_index with
  | some expr_region =>
    match paths.get? expr_region.file_id with
    | some path =>
      .ok (region_ids, report.insertHit path expr_region.loc (i64ToUsize count))
    | none => .panic
  | none => .ok (region_ids, report)

/-- One step of the first pass over `func.expressions` (step 3 of the
evaluator): resolve now, or zero out optimised-out instrumentation
operands and defer. -/
def exprPassStep (paths : List RPath) (regions : List CounterMappingRegion)
    (st : List (Counter × Int) × CoverageReport × List (Nat × Expression))
    (p : Nat × Expression) :
    RRes (List (Counter × Int) × CoverageReport × List (Nat × Expression)) :=
  let (region_ids, report, pending) := st
  let (expr_index, expr) := p
  match alGet region_ids expr.lhs, alGet region_ids expr.rhs with
  | some l, some r => do
    let (region_ids, report) ←
      resolveExpr paths regions region_ids report expr_index expr l r
    pure (region_ids, report, pending)
  | lhs, rhs =>
    let region_ids :=
      if lhs.isNone && expr.lhs.is_instrumentation then alInsert region_ids expr.lhs 0
      else region_ids
    let region_ids :=
      if rhs.isNone && expr.rhs.is_instrumentation then alInsert region_ids expr.rhs 0
      else region_ids
    .ok (region_ids, report, pending ++ [(expr_index, expr)])

/-- The pending-expression loop (step 4 of the evaluator), translated
with its `index` cursor and `tries_left` counter; `assert!(tries_left >
0)` becomes the panic outcome.  The fuel argument only forces structural
recursion and is chosen at the call site strictly above the largest
number of iterations the `tries_left` discipline permits, so it never
runs out before the source loop exits or asserts. -/
def pendingLoop (paths : List RPath) (regions : List CounterMappingRegion) :
    Nat → List (Nat × Expression) → List (Counter × Int) → CoverageReport →
    Nat → Nat → RRes CoverageReport
  | 0, _, _, _, _, _ => .panic
  | _ + 1, [], _, report, _, _ => .ok report
  | fuel + 1, pending, region_ids, report, index, tries_left =>
    if tries_left = 0 then .panic
    else
      let (index, tries_left) :=
        if index ≥ pending.length then (0, tries_left - 1) else (index, tries_left)
      let (expr_index, expr) := pending.getD index (0, default)
      match alGet region_ids expr.lhs, alGet region_ids expr.rhs with
      | some l, some r =>
        let pending := pending.eraseIdx index
        match resolveExpr paths regions region_ids report expr_index expr l r with
        | .ok (region_ids, report) =>
          pendingLoop paths regions fuel pending region_ids report index tries_left
        | .err => .err
        | .panic => .panic
      | _, _ =>
        pendingLoop paths regions fuel pending region_ids report (index + 1) tries_left

/-- Evaluation of one `covfun` function record against the profile
(the body of the `for func in &info.cov_fun` loop of
`generate_report`). -/
def generateFunctionReport (profile : InstrumentationProfile)
    (info : CoverageMappingInfo) (report : CoverageReport)
    (func : FunctionRecordV3) : RRes CoverageReport := do
  let base_region_ids := get_simple_counters profile func
  let paths := info.get_files_from_id func.header.filenames_ref
  if paths.isEmpty then
    pure report
  else do
    let region_ids := base_region_ids
    let report ← regionPass paths region_ids report func.regions
    let (region_ids, report, pending_exprs) ←
      func.expressions.enum.foldlM (exprPassStep paths func.regions)
        (region_ids, report, [])
    pendingLoop paths func.regions
      ((pending_exprs.length + 3) * (pending_exprs.length + 3))
      pending_exprs region_ids report 0 (pending_exprs.length + 1)

/-- `CoverageMapping::generate_report`. -/
def CoverageMapping.generate_report (self : CoverageMapping) :
    RRes CoverageReport :=
  self.mapping_info.foldlM
    (fun report info => info.cov_fun.foldlM (generateFunctionReport self.profile info) report)
    (⟨[]⟩ : CoverageReport)

/-! ## `parse_counter` and `parse_mapping_regions` -/

/-- `parse_counter` (the stateless `decodeCounter` port): decodes a
counter tag and lazily grows / re-kinds the expression table. -/
def parse_counter (input : Nat) (exprs : List Expression) :
    Counter × List Expression :=
  let ty := ENCODING_TAG_MASK &&& input
  let id := input >>> 2
  match ty with
  | 0 => (⟨.zero, id⟩, exprs)
  | 1 => (⟨.profileInstrumentation, id⟩, exprs)
  | _ =>
    let expr_kind := if ty = 2 then ExprKind.subtract else ExprKind.add
    let exprs :=
      if exprs.length ≤ id then
        exprs ++ List.replicate (id + 1 - exprs.length) default
      else exprs
    let exprs := listModify exprs id fun e => e.set_kind expr_kind
    (⟨.expression expr_kind, id⟩, exprs)

/-- Decode of the counter/kind prefix of one region (everything before the
four location values): yields counter, false counter, kind, expanded file
id and the rest of the input.  `todo!()` on an out-of-range expansion file
id and `panic!` on a malformed region kind are panics. -/
def parseRegionPrefix (bytes : Bytes) (exprs : List Expression)
    (file_indices_len : Nat) :
    RRes ((Counter × Counter × RegionKind × Nat) × Bytes × List Expression) := do
  let (raw_header, bytes) ← parseLeb128 bytes
  let (counter, exprs) := parse_counter raw_header exprs
  if counter.is_zero then
    if raw_header &&& ENCODING_EXPANSION_REGION_BIT > 0 then
      let expanded_file_id := raw_header >>> ENCODING_TAG_AND_EXP_REGION_BITS
      if expanded_file_id ≥ file_indices_len then .panic
      else .ok ((counter, default, .expansion, expanded_file_id), bytes, exprs)
    else
      let shifted_counter := raw_header >>> ENCODING_TAG_AND_EXP_REGION_BITS
      match regionKindOfNat shifted_counter with
      -- the source leaves `kind` at its `Code` initialisation in both the
      -- `Ok(Code)` and the `Ok(Skipped)` arm
      | some .code => .ok ((counter, default, .code, 0), bytes, exprs)
      | some .skipped => .ok ((counter, default, .code, 0), bytes, exprs)
      | some .branch => do
        let (c1, bytes) ← parseLeb128 bytes
        let (c2, bytes) ← parseLeb128 bytes
        let (counter, exprs) := parse_counter c1 exprs
        let (false_count, exprs) := parse_counter c2 exprs
        .ok ((counter, false_count, .branch, 0), bytes, exprs)
      | _ => .panic
  else .ok ((counter, default, .code, 0), bytes, exprs)

/-- Decode of one region (one iteration of the inner loop of
`parse_mapping_regions`); `i` is the current file index, `last_line` the
running line cursor for this file. -/
def parseOneRegion (bytes : Bytes) (exprs : List Expression)
    (file_indices_len : Nat) (i : Nat) (last_line : Nat) :
    RRes (CounterMappingRegion × Bytes × List Expression × Nat) := do
  let ((counter, false_count, kind, expanded_file_id), bytes, exprs) ←
    parseRegionPrefix bytes exprs file_indices_len
  let (delta_line, bytes) ← parseLeb128 bytes
  let (column_start, bytes) ← parseLeb128 bytes
  let (lines_len, bytes) ← parseLeb128 bytes
  let (column_end, bytes) ← parseLeb128 bytes
  let (column_start, column_end) :=
    if column_start = 0 && column_end = 0 then (1, usizeMax)
    else (column_start, column_end)
  let line_start := (last_line + delta_line) % 2 ^ 64
  let line_end := (line_start + lines_len) % 2 ^ 64
  .ok (⟨kind, counter, false_count, i, expanded_file_id,
        ⟨line_start, column_start, line_end, column_end⟩⟩,
       bytes, exprs, line_start)

/-- The `for _ in 0..regions_len` loop of `parse_mapping_regions`. -/
def parseRegionsCount (file_indices_len i : Nat) :
    Nat → Bytes → List Expression → Nat →
    RRes (List CounterMappingRegion × Bytes × List Expression)
  | 0, bytes, exprs, _ => .ok ([], bytes, exprs)
  | n + 1, bytes, exprs, last_line => do
    let (region, bytes, exprs, last_line) ←
      parseOneRegion bytes exprs file_indices_len i last_line
    let (regions, bytes, exprs) ←
      parseRegionsCount file_indices_len i n bytes exprs last_line
    .ok (region :: regions, bytes, exprs)

/-- The per-file-index loop of `parse_mapping_regions`. -/
def parseRegionsFiles (file_indices_len : Nat) :
    List Nat → Bytes → List Expression →
    RRes (List CounterMappingRegion × Bytes × List Expression)
  | [], bytes, exprs => .ok ([], bytes, exprs)
  | i :: rest, bytes, exprs => do
    let (regions_len, bytes) ← parseLeb128 bytes
    let (regions, bytes, exprs) ←
      parseRegionsCount file_indices_len i regions_len bytes exprs 0
    let (more, bytes, exprs) ← parseRegionsFiles file_indices_len rest bytes exprs
    .ok (regions ++ more, bytes, exprs)

/-- `parse_mapping_regions`. -/
def parse_mapping_regions (bytes : Bytes) (file_indices : List Nat)
    (expressions : List Expression) :
    RRes (Bytes × List CounterMappingRegion × List Expression) := do
  let (mapping, bytes, exprs) ←
    parseRegionsFiles file_indices.length file_indices bytes expressions
  .ok (bytes, mapping, exprs)

/-! ## `nom` combinators used by the text reader -/

/-- `nom::bytes::complete::tag`. -/
def tagBytes (t input : Bytes) : RRes (Bytes × Bytes) :=
  if input.take t.length = t then .ok (t, input.drop t.length) else .err

/-- ASCII lowercasing of one byte. -/
def asciiLower (b : Nat) : Nat := if 65 ≤ b && b ≤ 90 then b + 32 else b

/-- ASCII uppercasing of one byte. -/
def asciiUpper (b : Nat) : Nat := if 97 ≤ b && b ≤ 122 then b - 32 else b

/-- `nom::bytes::complete::tag_no_case` (ASCII case-insensitive). -/
def tagNoCase (t input : Bytes) : RRes (Bytes × Bytes) :=
  if (input.take t.length).map asciiLower = t.map asciiLower then
    .ok (input.take t.length, input.drop t.length)
  else .err

/-- `nom::bytes::complete::take_until`: everything before the first
occurrence of `t`; fails when `t` does not occur. -/
def takeUntil (t : Bytes) : Bytes → RRes (Bytes × Bytes)
  | [] => if t = [] then .ok ([], []) else .err
  | b :: rest =>
    if (b :: rest).take t.length = t then .ok ([], b :: rest)
    else
      match takeUntil t rest with
      | .ok (before, after) => .ok (b :: before, after)
      | e => e

/-- `nom::character::complete::line_ending`: `\n` or `\r\n`. -/
def lineEnding (input : Bytes) : RRes (Bytes × Bytes) :=
  match input with
  | 10 :: rest => .ok ([10], rest)
  | 13 :: 10 :: rest => .ok ([13, 10], rest)
  | _ => .err

/-- `nom::bytes::complete::take_while1`. -/
def takeWhile1 (p : Nat → Bool) (input : Bytes) : RRes (Bytes × Bytes) :=
  let taken := input.takeWhile p
  if taken.isEmpty then .err else .ok (taken, input.drop taken.length)

/-- `nom::combinator::eof`. -/
def eofP (input : Bytes) : RRes (Bytes × Bytes) :=
  if input.isEmpty then .ok ([], []) else .err

/-! ## `instrumentation_profile/text_profile.rs`: the text reader -/

/-- `IR_TAG` (`b"ir"`). -/
def IR_TAG : Bytes := [105, 114]

/-- `FE_TAG` (`b"fe"`). -/
def FE_TAG : Bytes := [102, 101]

/-- `CSIR_TAG` (`b"csir"`). -/
def CSIR_TAG : Bytes := [99, 115, 105, 114]

/-- `ENTRY_TAG` (`b"entry_first"`). -/
def ENTRY_TAG : Bytes := [101, 110, 116, 114, 121, 95, 102, 105, 114, 115, 116]

/-- `NOT_ENTRY_TAG` (`b"not_entry_first"`). -/
def NOT_ENTRY_TAG : Bytes := [110, 111, 116, 95] ++ ENTRY_TAG

/-- `EXTERNAL_SYMBOL` (`b"** External Symbol **"`). -/
def EXTERNAL_SYMBOL : Bytes :=
  [42, 42, 32, 69, 120, 116, 101, 114, 110, 97, 108, 32, 83, 121, 109, 98,
   111, 108, 32, 42, 42]

/-- `check_tag`: UTF-8 decode and compare against the tag or its ASCII
uppercase form. -/
def check_tag (data tag : Bytes) : Bool :=
  if utf8Valid data then data = tag || data = tag.map asciiUpper else false

/-- `is_digit`. -/
def isDigitB (b : Nat) : Bool := 48 ≤ b && b ≤ 57

/-- `is_hex_digit`. -/
def isHexDigitB (b : Nat) : Bool :=
  isDigitB b || (65 ≤ b && b ≤ 70) || (97 ≤ b && b ≤ 102)

/-- `valid_name_char`: ASCII and not a newline byte. -/
def valid_name_char (b : Nat) : Bool := b ≤ 127 && b ≠ 10 && b ≠ 13

/-- Numeric value of the decimal digits `bs`. -/
def decimalValue (bs : Bytes) : Nat := bs.foldl (fun acc b => acc * 10 + (b - 48)) 0

/-- `str_to_digit`: `str::parse::<u64>` with overflow collapsed to the
default 0 by `unwrap_or_default`. -/
def str_to_digit (bs : Bytes) : Nat :=
  let v := decimalValue bs
  if v ≤ u64Max then v else 0

/-- Numeric value of hex digits. -/
def hexValue (bs : Bytes) : Nat :=
  bs.foldl
    (fun acc b =>
      let d :=
        if isDigitB b then b - 48
        else if 65 ≤ b && b ≤ 70 then b - 55
        else b - 87
      acc * 16 + d) 0

/-- `read_hexadecimal`: `0x`/`0X` prefix then hex digits; the
`from_str_radix(..).unwrap()` panics on a value beyond `u64`. -/
def read_hexadecimal (input : Bytes) : RRes (Nat × Bytes) := do
  let (_, input) ←
    match tagBytes [48, 120] input with
    | .ok r => RRes.ok r
    | _ => tagBytes [48, 88] input
  let (digits, rest) ← takeWhile1 isHexDigitB input
  let v := hexValue digits
  if v ≤ u64Max then .ok (v, rest) else .panic

/-- `read_decimal`: digits followed by a line ending or end of input. -/
def read_decimal (input : Bytes) : RRes (Nat × Bytes) := do
  let (digits, rest) ← takeWhile1 isDigitB input
  let (_, rest) ←
    match lineEnding rest with
    | .ok r => RRes.ok r
    | _ => eofP rest
  .ok (str_to_digit digits, rest)

/-- `read_digit`. -/
def read_digit (input : Bytes) : RRes (Nat × Bytes) :=
  match read_decimal input with
  | .ok r => .ok r
  | _ => read_hexadecimal input

/-- `read_line`: a non-empty run of name characters plus a line ending. -/
def read_line (input : Bytes) : RRes (Bytes × Bytes) := do
  let (name, rest) ← takeWhile1 valid_name_char input
  let (_, rest) ← lineEnding rest
  .ok (name, rest)

/-- One `strip_whitespace`-or-`strip_comments` step of `skip_to_content`.
`strip_whitespace` eats one blank byte; `strip_comments` eats a
`#`-to-end-of-line comment. -/
def skipStep (input : Bytes) : Option Bytes :=
  match input with
  | 32 :: rest => some rest
  | 10 :: rest => some rest
  | 13 :: rest => some rest
  | 9 :: rest => some rest
  | 35 :: rest =>
    (match takeUntil [10] rest with
     | .ok (_, after) =>
       match lineEnding after with
       | .ok (_, rest2) => some rest2
       | _ => none
     | _ =>
       match takeUntil [13] rest with
       | .ok (_, after) =>
         match lineEnding after with
         | .ok (_, rest2) => some rest2
         | _ => none
       | _ => none)
  | _ => none

/-- Fuelled `skip_to_content` (`many0` over the steps; `many0` recovers
from step failure, so the combinator as a whole never fails). -/
def skipToContentF : Nat → Bytes → Bytes
  | 0, input => input
  | fuel + 1, input =>
    match skipStep input with
    | some rest => skipToContentF fuel rest
    | none => input

/-- `skip_to_content`. -/
def skip_to_content (input : Bytes) : Bytes := skipToContentF input.length input

/-- `match_header_tags`: the tag alternatives tried in source order. -/
def match_header_tags (input : Bytes) : RRes (Bytes × Bytes) :=
  match tagNoCase IR_TAG input with
  | .ok r => .ok r
  | _ =>
    match tagNoCase FE_TAG input with
    | .ok r => .ok r
    | _ =>
      match tagNoCase CSIR_TAG input with
      | .ok r => .ok r
      | _ =>
        match tagNoCase ENTRY_TAG input with
        | .ok r => .ok r
        | _ =>
          match takeUntil [10] input with
          | .ok r => .ok r
          | _ => takeUntil [13] input

/-- Fuelled `parse_header_tags`: `many0(delimited(tag(b":"),
match_header_tags, line_ending))`. -/
def parseHeaderTagsF : Nat → Bytes → List Bytes × Bytes
  | 0, input => ([], input)
  | fuel + 1, input =>
    match tagBytes [58] input with
    | .ok (_, rest) =>
      (match match_header_tags rest with
       | .ok (name, rest) =>
         match lineEnding rest with
         | .ok (_, rest) =>
           let (names, rest2) := parseHeaderTagsF fuel rest
           (name :: names, rest2)
         | _ => ([], input)
       | _ => ([], input))
    | _ => ([], input)

/-- `parse_header_tags`. -/
def parse_header_tags (input : Bytes) : List Bytes × Bytes :=
  parseHeaderTagsF input.length input

/-- The text reader's header state. -/
structure TextHeader where
  is_ir_level : Bool
  has_csir : Bool
  entry_first : Bool
  deriving DecidableEq, Repr

/-- Per-tag update of `TextInstrProf::parse_header`; `none` is the
unknown-tag failure. -/
def headerTagStep (st : TextHeader) (name : Bytes) : Option TextHeader :=
  if check_tag name IR_TAG || check_tag name NOT_ENTRY_TAG then
    some { st with is_ir_level := true }
  else if check_tag name CSIR_TAG then
    some { st with has_csir := true, is_ir_level := true }
  else if check_tag name ENTRY_TAG then
    some { st with entry_first := true }
  else if check_tag name FE_TAG then some st
  else none

/-- `TextInstrProf::parse_header`. -/
def textParseHeader (input : Bytes) : RRes (TextHeader × Bytes) :=
  let input := skip_to_content input
  let (names, bytes) := parse_header_tags input
  match names.foldlM headerTagStep ⟨false, false, false⟩ with
  | some h => .ok (h, bytes)
  | none => .err

/-- `indirect_value_site`: `<symbol>:<digits>`. -/
def indirect_value_site (input : Bytes) : RRes ((Bytes × Nat) × Bytes) := do
  let (sym, rest) ← takeUntil [58] input
  let (_, rest) ← tagBytes [58] rest
  let (digits, rest) ← takeWhile1 isDigitB rest
  .ok ((sym, str_to_digit digits), rest)

/-- `memop_value_site`: `<digits>:<digits>`. -/
def memop_value_site (input : Bytes) : RRes ((Nat × Nat) × Bytes) := do
  let (d1, rest) ← takeWhile1 isDigitB input
  let (_, rest) ← tagBytes [58] rest
  let (d2, rest) ← takeWhile1 isDigitB rest
  .ok ((str_to_digit d1, str_to_digit d2), rest)

/-- The `for _k in 0..n_val_data` loop of `read_value_profile_data`. -/
def valueEntriesLoop (kind : Nat) :
    Nat → Bytes → InstrProfValueSiteRecord →
    RRes (InstrProfValueSiteRecord × Bytes)
  | 0, input, acc => .ok (acc, input)
  | k + 1, input, acc =>
    let bytes := skip_to_content input
    if kind = 0 then
      match indirect_value_site bytes with
      | .ok ((sym, count), bytes) =>
        let value := if sym = EXTERNAL_SYMBOL then 0 else compute_hash sym
        valueEntriesLoop kind k bytes (acc ++ [⟨value, count⟩])
      | .err => .err
      | .panic => .panic
    else
      match memop_value_site bytes with
      | .ok ((value, count), bytes) =>
        valueEntriesLoop kind k bytes (acc ++ [⟨value, count⟩])
      | .err => .err
      | .panic => .panic

/-- The `for _j in 0..n_sites` loop of `read_value_profile_data`. -/
def valueSitesLoop (kind : Nat) :
    Nat → Bytes → ValueProfDataRecord →
    RRes (ValueProfDataRecord × Bytes)
  | 0, input, record => .ok (record, input)
  | s + 1, input, record =>
    let bytes := skip_to_content input
    match read_digit bytes with
    | .ok (n_val_data, bytes) =>
      (match valueEntriesLoop kind n_val_data bytes [] with
       | .ok (site_records, input) =>
         let record :=
           if kind = 0 then
             { record with
               indirect_callsites := record.indirect_callsites ++ [site_records] }
           else { record with mem_op_sizes := record.mem_op_sizes ++ [site_records] }
         valueSitesLoop kind s input record
       | .err => .err
       | .panic => .panic)
    | .err => .err
    | .panic => .panic

/-- The `for _i in 0..n_kinds` loop of `read_value_profile_data`.  Note
the source order: a failing sites count `continue`s to the next kind
before the kind value itself is validated (`todo!()` on kinds other than
0 and 1). -/
def valueKindsLoop :
    Nat → Bytes → ValueProfDataRecord → RRes (ValueProfDataRecord × Bytes)
  | 0, input, record => .ok (record, input)
  | n + 1, input, record =>
    let bytes := skip_to_content input
    match read_digit bytes with
    | .ok (kind, bytes) =>
      let bytes := skip_to_content bytes
      (match read_digit bytes with
       | .ok (n_sites, bytes) =>
         if kind ≥ 2 then .panic
         else
           (match valueSitesLoop kind n_sites bytes record with
            | .ok (record, input) => valueKindsLoop n input record
            | .err => .err
            | .panic => .panic)
       | .err => valueKindsLoop n bytes record
       | .panic => .panic)
    | .err => .err
    | .panic => .panic

/-- `read_value_profile_data`. -/
def read_value_profile_data (input : Bytes) :
    RRes (Option ValueProfDataRecord × Bytes) :=
  match read_digit input with
  | .ok (n_kinds, bytes) =>
    if n_kinds = 0 || n_kinds > 2 then .panic
    else
      match valueKindsLoop n_kinds bytes ⟨[], []⟩ with
      | .ok (record, input) => .ok (some record, input)
      | .err => .err
      | .panic => .panic
  | .panic => .panic
  | .err => .ok (none, input)

/-- The `for i in 0..num_counters` loop of the text reader.  (The
`Err`-propagating arms after `skip_to_content` are dead in the source:
`many0` cannot fail, so `skip_to_content` always succeeds.) -/
def textCountersLoop :
    Nat → Bytes → List Nat → RRes (List Nat × Bytes)
  | 0, input, counters => .ok (counters, input)
  | i + 1, input, counters =>
    match read_digit input with
    | .ok (counter, bytes) =>
      textCountersLoop i (skip_to_content bytes) (counters ++ [counter])
    | .err => .err
    | .panic => .panic

/-- One record iteration of the text reader's `while` loop. -/
def textRecordStep (input : Bytes) (result : InstrumentationProfile) :
    RRes (Bytes × InstrumentationProfile) := do
  let (name, bytes) ← read_line input
  let bytes := skip_to_content bytes
  let (hash, bytes) ← read_digit bytes
  let bytes := skip_to_content bytes
  let (num_counters, bytes) ← read_digit bytes
  let bytes := skip_to_content bytes
  let (counters, input) ← textCountersLoop num_counters bytes []
  let (data, bytes) ← read_value_profile_data input
  let record : InstrProfRecord := ⟨counters, data⟩
  let name := from_utf8 name
  -- the record is pushed without a `name_hash` (`None`)
  let result :=
    { result with
      records := result.records.push ⟨name, none, some hash, record⟩ }
  let result :=
    match name with
    | some name => { result with symtab := ⟨btInsert result.symtab.names hash name⟩ }
    | none => result
  .ok (skip_to_content bytes, result)

/-- Fuelled `while !input.is_empty()` loop of the text reader. -/
def textRecordsLoop :
    Nat → Bytes → InstrumentationProfile → RRes InstrumentationProfile
  | 0, input, result => if input.isEmpty then .ok result else .err
  | fuel + 1, input, result =>
    if input.isEmpty then .ok result
    else
      match textRecordStep input result with
      | .ok (input, result) => textRecordsLoop fuel input result
      | .err => .err
      | .panic => .panic

/-- `TextInstrProf::parse_bytes`. -/
def textParseBytes (input : Bytes) : RRes InstrumentationProfile := do
  let (header, bytes) ← textParseHeader input
  let bytes := skip_to_content bytes
  let result : InstrumentationProfile :=
    { defaultProfile with
      has_csir := header.has_csir
      is_ir := header.is_ir_level
      is_entry_first := header.entry_first }
  textRecordsLoop bytes.length bytes result

/-! ## `util.rs`: string refs (deflate is an external collaborator and is
passed in as a function) -/

/-- `String::split('\u{1}')` and friends: split on a separator byte. -/
def splitByte (sep : Nat) : Bytes → List Bytes
  | [] => [[]]
  | b :: rest =>
    if b = sep then [] :: splitByte sep rest
    else
      match splitByte sep rest with
      | t :: ts => (b :: t) :: ts
      | [] => [[b]]

/-- `parse_string_ref` from `util.rs`.  `inflate` is the external deflate
decoder (`ZlibDecoder`), returning `none` on a corrupt stream.  In the
compressed branch the source calls `String::from_utf8(..).unwrap()`,
which panics on invalid UTF-8; in the uncompressed branch the slice
`&input[..uncompressed_size]` panics when the length exceeds the input. -/
def parse_string_ref (inflate : Bytes → Option Bytes) (input : Bytes) :
    RRes (Bytes × Bytes) := do
  let (uncompressed_size, input) ← parseLeb128 input
  let (compressed_size, input) ← parseLeb128 input
  if compressed_size ≠ 0 then
    if compressed_size > input.length then .err
    else
      match inflate (input.take compressed_size) with
      | some output =>
        match from_utf8 output with
        | some name => .ok (name, input.drop compressed_size)
        | none => .panic
      | none => .err
  else
    if uncompressed_size > input.length then .panic
    else
      match from_utf8 (input.take uncompressed_size) with
      | some name => .ok (name, input.drop uncompressed_size)
      | none => .err

/-- `get_num_padding_bytes`.  Modelled from the spec: the helper is not in
the provided sources; §4.E specifies "padding to 8-byte boundary" after
the names blob, matching LLVM's `__llvm_profile_get_num_padding_bytes`. -/
def get_num_padding_bytes (len : Nat) : Nat := (8 - len % 8) % 8

/-! ## `instrumentation_profile/raw_profile.rs`: the raw reader

The reader is generic over the pointer width `T ∈ {u32, u64}`; here the
width in bytes (`w ∈ {4, 8}`) is a parameter. -/

/-- Mask clearing the flag bits: `version & !VARIANT_MASKS_ALL`. -/
def maskVersion (v : Nat) : Nat := v &&& (2 ^ 56 - 1)

/-- `RawInstrProf32::MAGIC` (`R`) and `RawInstrProf64::MAGIC` (`r`). -/
def rawMagic (w : Nat) : Nat :=
  if w = 4 then 0xff6c70726f665281 else 0xff6c70726f667281

/-- `RawInstrProf::has_format`: the native-endian (little-endian host)
first word equals the magic directly or byte-swapped. -/
def rawHasFormat (w : Nat) (input : Bytes) : Bool :=
  8 ≤ input.length &&
    (u64FromLeBytes input = rawMagic w ||
     swapBytes64 (u64FromLeBytes input) = rawMagic w)

/-- `file_endianness`: compare the little-endian magic word against the
expected magic; `unreachable!` when neither form matches. -/
def file_endianness (w : Nat) (input : Bytes) : RRes Endianness :=
  let provided := u64FromLeBytes input
  if provided = rawMagic w then .ok .little
  else if swapBytes64 provided = rawMagic w then .ok .big
  else .panic

/-- The raw reader's `Header`. -/
structure RawHeader where
  endianness : Endianness
  version : Nat
  binary_ids_len : Nat
  data_len : Nat
  padding_bytes_before_counters : Nat
  counters_len : Nat
  padding_bytes_after_counters : Nat
  names_len : Nat
  counters_delta : Nat
  names_delta : Nat
  value_kind_last : Nat
  deriving DecidableEq, Repr

/-- `Header::version()` (flag bits cleared). -/
def RawHeader.versionMasked (self : RawHeader) : Nat := maskVersion self.version

/-- `Header::has_byte_coverage`. -/
def RawHeader.has_byte_coverage (self : RawHeader) : Bool :=
  self.version &&& VARIANT_MASK_BYTE_COVERAGE ≠ 0

/-- `Header::ir_profile`. -/
def RawHeader.ir_profile (self : RawHeader) : Bool :=
  self.version &&& VARIANT_MASK_IR_PROF ≠ 0

/-- `Header::csir_profile`. -/
def RawHeader.csir_profile (self : RawHeader) : Bool :=
  self.version &&& VARIANT_MASK_CSIR_PROF ≠ 0

/-- `Header::function_entry_only`. -/
def RawHeader.function_entry_only (self : RawHeader) : Bool :=
  self.version &&& VARIANT_MASK_FUNCTION_ENTRY_ONLY ≠ 0

/-- `Header::memory_profile`. -/
def RawHeader.memory_profile (self : RawHeader) : Bool :=
  self.version &&& VARIANT_MASK_MEMORY_PROFILE ≠ 0

/-- `Header::counter_size`. -/
def RawHeader.counter_size (self : RawHeader) : Nat :=
  if self.has_byte_coverage then 1 else 8

/-- `Header::max_counters_len`: `((8 * counters_len) +
padding_bytes_after_counters) as i64` with `u64` wrapping. -/
def RawHeader.max_counters_len (self : RawHeader) : Int :=
  toI64 ((8 * self.counters_len % 2 ^ 64 + self.padding_bytes_after_counters) % 2 ^ 64)

/-- The raw reader's `ProfileData<T>` entry. -/
structure RawProfileData where
  name_ref : Nat
  func_hash : Nat
  counter_ptr : Nat
  function_addr : Nat
  values_ptr_expr : Nat
  num_counters : Nat
  num_value_sites : Nat × Nat
  deriving DecidableEq, Repr

/-- `ProfileData::len` for width `w`: `16 + 4 + 2·2 + 3·size_of::<T>()`. -/
def rawProfileDataLen (w : Nat) : Nat := 16 + 4 + 2 * 2 + 3 * w

/-- Width-dispatched read of a `T` value (`T::nom_parse_fn`). -/
def readWidth (w : Nat) (e : Endianness) (bs : Bytes) : RRes (Nat × Bytes) :=
  if w = 4 then readU32 e bs else readU64 e bs

/-- `ProfileData::parse`. -/
def rawProfileDataParse (w : Nat) (e : Endianness) (bytes : Bytes) :
    RRes (RawProfileData × Bytes) := do
  let (name_ref, bytes) ← readU64 e bytes
  let (func_hash, bytes) ← readU64 e bytes
  let (counter_ptr, bytes) ← readWidth w e bytes
  let (function_addr, bytes) ← readWidth w e bytes
  let (values_ptr_expr, bytes) ← readWidth w e bytes
  let (num_counters, bytes) ← readU32 e bytes
  let (value_0, bytes) ← readU16 e bytes
  let (value_1, bytes) ← readU16 e bytes
  .ok (⟨name_ref, func_hash, counter_ptr, function_addr, values_ptr_expr,
        num_counters, (value_0, value_1)⟩, bytes)

/-- The counter-reading loop of `read_raw_counts`: 1-byte counters under
byte coverage (`0 ↦ 1`, otherwise `0`), 8-byte counters otherwise.
Indexing `bytes[0]` on an empty slice is a panic. -/
def rawCountsLoop (header : RawHeader) :
    Nat → Bytes → RRes (List Nat × Bytes)
  | 0, bytes => .ok ([], bytes)
  | n + 1, bytes =>
    if header.has_byte_coverage then
      match bytes with
      | [] => .panic
      | b :: rest => do
        let (counts, rest) ← rawCountsLoop header n rest
        .ok ((if b = 0 then 1 else 0) :: counts, rest)
    else do
      let (counter, rest) ← readU64 header.endianness bytes
      let (counts, rest) ← rawCountsLoop header n rest
      .ok (counter :: counts, rest)

/-- `RawInstrProf::read_raw_counts`. -/
def read_raw_counts (header : RawHeader) (data : RawProfileData)
    (counter_offset : Int) (bytes : Bytes) : RRes (InstrProfRecord × Bytes) :=
  let max_counters := header.max_counters_len
  if data.num_counters = 0 ∨ max_counters < 0 ∨ counter_offset < 0 ∨
      i64ToUsize counter_offset ≥ header.counters_len * header.counter_size % 2 ^ 64 ∨
      (data.num_counters : Int) > max_counters ∨
      (header.version < 8 ∧ counter_offset < 0) ∨
      counter_offset > max_counters ∨
      wrapI64 (counter_offset + data.num_counters) > max_counters then
    .err
  else if i64ToUsize counter_offset > bytes.length then .err
  else do
    let bytes := bytes.drop (i64ToUsize counter_offset)
    let (counts, bytes) ← rawCountsLoop header data.num_counters bytes
    .ok (⟨counts, none⟩, bytes)

/-- `RawInstrProf::read_value_profiling_data`: nothing to read when all
site counts are zero, `todo!()` (a panic) otherwise. -/
def read_value_profiling_data (header : RawHeader) (data : RawProfileData)
    (bytes : Bytes) : RRes (Unit × Bytes) :=
  if data.num_value_sites.1 = 0 ∧ data.num_value_sites.2 = 0 then .ok ((), bytes)
  else
    match readU32 header.endianness bytes with
    | .ok _ => .panic
    | .err => .err
    | .panic => .panic

/-- `RawInstrProf::parse_header`. -/
def rawParseHeader (w : Nat) (input : Bytes) : RRes (RawHeader × Bytes) :=
  if rawHasFormat w input then do
    let endianness ← file_endianness w input
    let (version, bytes) ← readU64 endianness (input.drop 8)
    let (binary_ids_len, bytes) ←
      if maskVersion version ≥ 7 then readU64 endianness bytes
      else .ok ((0 : Nat), bytes)
    let (data_len, bytes) ← readU64 endianness bytes
    let (padding_bytes_before_counters, bytes) ← readU64 endianness bytes
    let (counters_len, bytes) ← readU64 endianness bytes
    let (padding_bytes_after_counters, bytes) ← readU64 endianness bytes
    let (names_len, bytes) ← readU64 endianness bytes
    let (counters_delta, bytes) ← readU64 endianness bytes
    let (names_delta, bytes) ← readU64 endianness bytes
    let (value_kind_last, bytes) ← readU64 endianness bytes
    .ok (⟨endianness, version, binary_ids_len, data_len,
          padding_bytes_before_counters, counters_len,
          padding_bytes_after_counters, names_len, counters_delta,
          names_delta, value_kind_last⟩, bytes)
  else .err

/-- The `for _ in 0..header.data_len` loop reading `ProfileData` entries. -/
def rawDataLoop (w : Nat) (e : Endianness) :
    Nat → Bytes → RRes (List RawProfileData × Bytes)
  | 0, input => .ok ([], input)
  | n + 1, input => do
    let (data, bytes) ← rawProfileDataParse w e input
    let (rest, bytes) ← rawDataLoop w e n bytes
    .ok (data :: rest, bytes)

/-- The per-record counter loop of the raw reader, tracking the running
`total_offset` cursor and the shrinking `counters_delta`. -/
def rawCountersPhase (w : Nat) (header : RawHeader) :
    List RawProfileData → Int → Nat → Bytes →
    RRes (List InstrProfRecord × Bytes)
  | [], _, _, input => .ok ([], input)
  | data :: rest, total_offset, counters_delta, input => do
    let counters_offset :=
      if header.versionMasked > 7 then
        wrapI64 (wrapI64 (toI64 data.counter_ptr - toI64 counters_delta) - total_offset)
      else 0
    let (record, bytes) ← read_raw_counts header data counters_offset input
    let total_offset :=
      wrapI64 (total_offset +
        wrapI64 (counters_offset +
          toI64 (record.counts.length * header.counter_size % 2 ^ 64)))
    let counters_delta := wsub counters_delta (rawProfileDataLen w)
    let (records, bytes) ← rawCountersPhase w header rest total_offset counters_delta bytes
    .ok (record :: records, bytes)

/-- The names-section loop: read string refs while the cursor is above
`end_length`, split each on `INSTR_PROF_NAME_SEP` (0x01) and add every
name under the header's endianness. -/
def rawNamesLoop (inflate : Bytes → Option Bytes) (e : Endianness)
    (end_length : Nat) :
    Nat → Bytes → Symtab → RRes (Symtab × Bytes)
  | 0, input, symtab => if input.length > end_length then .err else .ok (symtab, input)
  | fuel + 1, input, symtab =>
    if input.length > end_length then
      match parse_string_ref inflate input with
      | .ok (names, input) =>
        let symtab :=
          (splitByte 1 names).foldl
            (fun st name => st.add_func_name name (some e)) symtab
        rawNamesLoop inflate e end_length fuel input symtab
      | .err => .err
      | .panic => .panic
    else .ok (symtab, input)

/-- The final loop pairing each `ProfileData` entry with its counters and
pushing the named records. -/
def rawRecordsPhase (header : RawHeader) (symtab : Symtab) :
    List (RawProfileData × InstrProfRecord) → Bytes → NamedInstrProfRecords →
    RRes (NamedInstrProfRecords × Bytes)
  | [], input, records => .ok (records, input)
  | (data, record) :: rest, input, records => do
    let (_, input) ← read_value_profiling_data header data input
    let name := btGet symtab.names data.name_ref
    let (hash, name_hash) :=
      if symtab.contains data.name_ref then
        (some data.func_hash, some data.name_ref)
      else (none, none)
    let records := records.push ⟨name, name_hash, hash, record⟩
    rawRecordsPhase header symtab rest input records

/-- `RawInstrProf::<T>::parse_bytes` (`w` is the pointer width in bytes,
`inflate` the external deflate decoder).  An empty input hits the
`todo!()` arm. -/
def rawParseBytes (w : Nat) (inflate : Bytes → Option Bytes)
    (input : Bytes) : RRes (InstrumentationProfile × Bytes) :=
  if input.isEmpty then .panic
  else do
    let (header, bytes) ← rawParseHeader w input
    let version_num := header.versionMasked
    let result :=
      { defaultProfile with
        version := some version_num
        is_ir := header.ir_profile
        has_csir := header.csir_profile }
    let result :=
      if version_num > 7 then
        { result with
          is_byte_coverage := header.has_byte_coverage
          fn_entry_only := header.function_entry_only
          memory_profiling := header.memory_profile }
      else result
    if bytes.length < header.binary_ids_len then .err
    else do
      let input := bytes.drop header.binary_ids_len
      let (data_section, input) ← rawDataLoop w header.endianness header.data_len input
      let (_, input) ← takeBytes header.padding_bytes_before_counters input
      let remaining_before_counters := input.length
      let (counters, input) ←
        rawCountersPhase w header data_section 0 header.counters_delta input
      let counters_end :=
        wsub ((header.padding_bytes_after_counters +
                header.counters_len * header.counter_size % 2 ^ 64) % 2 ^ 64)
          (remaining_before_counters - input.length)
      let (_, input) ← takeBytes counters_end input
      let end_length := wsub input.length header.names_len
      let (symtab, input) ←
        rawNamesLoop inflate header.endianness end_length input.length input ⟨[]⟩
      let padding := get_num_padding_bytes header.names_len
      let (_, input) ← takeBytes padding input
      let (records, input) ←
        rawRecordsPhase header symtab (data_section.zip counters) input
          result.records
      .ok ({ result with records := records, symtab := symtab }, input)

/-! ## `hash_table.rs`: the indexed profile's on-disk chained hash table -/

/-- `IndexMap<(u64, String), InstrProfRecord>`: insertion order preserved,
insert replaces an existing key's value in place. -/
abbrev HashTable := List ((Nat × Bytes) × InstrProfRecord)

/-- `IndexMap::insert` (discarding the returned old value). -/
def indexMapInsert (m : HashTable) (k : Nat × Bytes) (v : InstrProfRecord) :
    HashTable :=
  match m with
  | [] => [(k, v)]
  | (k0, v0) :: rest =>
    if k0 = k then (k, v) :: rest else (k0, v0) :: indexMapInsert rest k v

/-- `read_key`: UTF-8-lossy decode of `key_len` bytes. -/
def read_key (input : Bytes) (key_len : Nat) : RRes (Bytes × Bytes) :=
  if key_len > input.length then .err
  else .ok (utf8Lossy (input.take key_len), input.drop key_len)

/-- The `for _ in 0..counts_len` loop of `read_value`. -/
def readValueCountsLoop :
    Nat → Bytes → RRes (List Nat × Bytes)
  | 0, input => .ok ([], input)
  | n + 1, input => do
    let (count, input) ← readU64le input
    let (counts, input) ← readValueCountsLoop n input
    .ok (count :: counts, input)

/-- The `while input.len() > end_len` loop of `read_value`, accumulating
per-fn-hash records (fuel = input length; every iteration consumes at
least 8 bytes). -/
def readValueLoop (version end_len : Nat) :
    Nat → Bytes → List (Nat × InstrProfRecord) → Nat →
    RRes (List (Nat × InstrProfRecord) × Nat)
  | 0, _, result, last_hash => .ok (result, last_hash)
  | fuel + 1, input, result, last_hash =>
    if input.length > end_len then
      match readU64le input with
      | .ok (hash, bytes) =>
        let last_hash := hash
        if bytes.length ≤ end_len then .ok (result, last_hash)
        else
          (match readU64le bytes with
           | .ok (counts_len, bytes) =>
             if bytes.length ≤ end_len then .ok (result, last_hash)
             else
               (match readValueCountsLoop counts_len bytes with
                | .ok (counts, input) =>
                  let result := result ++ [(hash, (⟨counts, none⟩ : InstrProfRecord))]
                  if input.length ≤ end_len then .ok (result, last_hash)
                  else
                    (match readU32 .little input with
                     | .ok (_total_size, bytes) =>
                       if bytes.length ≤ end_len then .ok (result, last_hash)
                       else
                         (match readU32 .little bytes with
                          | .ok (num_value_kinds, bytes) =>
                            if bytes.length < end_len then .ok (result, last_hash)
                            else if num_value_kinds > 0 ∧ version > 2 then
                              .ok (result, last_hash)
                            else readValueLoop version end_len fuel bytes result last_hash
                          | .err => .err
                          | .panic => .panic)
                     | .err => .err
                     | .panic => .panic)
                | .err => .err
                | .panic => .panic)
           | .err => .err
           | .panic => .panic)
      | .err => .err
      | .panic => .panic
    else .ok (result, last_hash)

/-- `read_value`: decode the `data_len`-byte value of one table slot into
a single `(fn_hash, record)` pair.  The final `assert_eq!(result.len(),
1)` panics when the region holds more than one record. -/
def read_value (version : Nat) (input : Bytes) (data_len : Nat) :
    RRes ((Nat × InstrProfRecord) × Bytes) :=
  if data_len % 8 ≠ 0 then .err
  else if input.length < data_len then .err
  else
    let end_len := input.length - data_len
    let expected_end := input.drop data_len
    match readValueLoop version end_len input.length input [] 0 with
    | .ok (result, last_hash) =>
      let result :=
        if result.isEmpty then [(last_hash, (default : InstrProfRecord))] else result
      if result.length ≠ 1 then .panic
      else .ok (result.headD (0, default), expected_end)
    | .err => .err
    | .panic => .panic

/-- The `for _i in 0..num_items_in_bucket` loop of `parse_bucket`. -/
def parseBucketItems (version : Nat) :
    Nat → Bytes → HashTable → Nat → RRes (HashTable × Nat × Bytes)
  | 0, input, table, num_entries => .ok (table, num_entries, input)
  | n + 1, input, table, num_entries => do
    let (_hash, bytes) ← readU64le input
    let (key_len, bytes) ← readU64le bytes
    let (data_len, bytes) ← readU64le bytes
    let (key, bytes) ← read_key bytes key_len
    let ((hash, value), bytes) ← read_value version bytes data_len
    let table := indexMapInsert table (hash, key) value
    if num_entries = 0 then .panic
    else parseBucketItems version n bytes table (num_entries - 1)

/-- `HashTable::parse_bucket`. -/
def parse_bucket (version : Nat) (input : Bytes) (table : HashTable)
    (num_entries : Nat) : RRes (HashTable × Nat × Bytes) := do
  let (num_items_in_bucket, bytes) ← readU16 .little input
  parseBucketItems version num_items_in_bucket bytes table num_entries

/-- The `for _ in 0..num_buckets` loop of `HashTable::parse`. -/
def hashTableBuckets (version : Nat) :
    Nat → Bytes → HashTable → Nat → RRes (HashTable × Bytes)
  | 0, payload, table, _ => .ok (table, payload)
  | n + 1, payload, table, num_entries =>
    match parse_bucket version payload table num_entries with
    | .ok (table, num_entries, payload) =>
      if num_entries = 0 then .ok (table, payload)
      else hashTableBuckets version n payload table num_entries
    | .err => .err
    | .panic => .panic

/-- `HashTable::parse`.  `assert!(bucket_start > 0)` and the slice
`&input[bucket_start..]` are panics when violated. -/
def hashTableParse (version : Nat) (input : Bytes) (_offset : Nat)
    (bucket_start : Nat) : RRes (HashTable × Bytes) :=
  if bucket_start = 0 then .panic
  else if bucket_start > input.length then .panic
  else do
    let (num_buckets, bytes) ← readU64le (input.drop bucket_start)
    let (num_entries, _bytes) ← readU64le bytes
    hashTableBuckets version num_buckets input [] num_entries

/-! ## `instrumentation_profile/indexed_profile.rs`: the indexed reader -/

/-- `SummaryFieldKind`. -/
inductive SummaryFieldKind where
  | totalNumFunctions
  | totalNumBlocks
  | maxFunctionCount
  | maxBlockCount
  | maxInternalBlockCount
  | totalBlockCount
  deriving DecidableEq, Repr

/-- `SummaryFieldKind::try_from(u64)`. -/
def summaryFieldOfNat (v : Nat) : Option SummaryFieldKind :=
  match v with
  | 0 => some .totalNumFunctions
  | 1 => some .totalNumBlocks
  | 2 => some .maxFunctionCount
  | 3 => some .maxBlockCount
  | 4 => some .maxInternalBlockCount
  | 5 => some .totalBlockCount
  | _ => none

/-- `summary.rs` `Kind`. -/
inductive SummaryKind where
  | instr
  | csInstr
  | sample
  deriving DecidableEq, Repr

/-- `ProfileSummaryEntry`. -/
structure ProfileSummaryEntry where
  cutoff : Nat
  min_count : Nat
  num_counts : Nat
  deriving DecidableEq, Repr

/-- `ProfileSummary`.  The `partial` flag is renamed `partial_flag`; the
`f64` ratio field (always constructed as `0.0` and never read) is
represented by a unit placeholder. -/
structure ProfileSummary where
  kind : SummaryKind
  total_count : Nat
  max_count : Nat
  max_internal_count : Nat
  max_function_count : Nat
  num_counts : Nat
  num_fns : Nat
  partial_flag : Bool
  partial_profile_ratio_f64 : Unit
  detailed_summary : List ProfileSummaryEntry
  deriving DecidableEq, Repr

/-- The indexed reader's `Header`. -/
structure IndexedHeader where
  version : Nat
  hash_offset : Nat
  mem_prof_offset : Option Nat
  binary_id_offset : Option Nat
  temporary_prof_traces_offset : Option Nat
  deriving DecidableEq, Repr

/-- `Header::version()` (indexed; flag bits cleared). -/
def IndexedHeader.versionMasked (self : IndexedHeader) : Nat :=
  maskVersion self.version

/-- `Header::is_csir_prof`. -/
def IndexedHeader.is_csir_prof (self : IndexedHeader) : Bool :=
  self.version &&& VARIANT_MASK_CSIR_PROF > 0

/-- `Header::is_ir_prof`. -/
def IndexedHeader.is_ir_prof (self : IndexedHeader) : Bool :=
  self.version &&& VARIANT_MASK_IR_PROF > 0

/-- The `for i in 0..n_fields` loop of `parse_summary`. -/
def summaryFieldsLoop :
    Nat → Nat → Bytes → List (SummaryFieldKind × Nat) →
    RRes (List (SummaryFieldKind × Nat) × Bytes)
  | 0, _, input, fields => .ok (fields, input)
  | n + 1, i, input, fields => do
    let (value, input) ← readU64le input
    let fields :=
      match summaryFieldOfNat i with
      | some field => alInsert fields field value
      | none => fields
    summaryFieldsLoop n (i + 1) input fields

/-- The `for _ in 0..n_entries` loop of `parse_summary`. -/
def summaryEntriesLoop :
    Nat → Bytes → RRes (List ProfileSummaryEntry × Bytes)
  | 0, input => .ok ([], input)
  | n + 1, input => do
    let (cutoff, bytes) ← readU64le input
    let (min_count, bytes) ← readU64le bytes
    let (num_counts, bytes) ← readU64le bytes
    let (rest, bytes) ← summaryEntriesLoop n bytes
    .ok (⟨cutoff, min_count, num_counts⟩ :: rest, bytes)

/-- `parse_summary` (version ≥ 4 only; `as u32` truncates). -/
def parse_summary (input : Bytes) (header : IndexedHeader) (use_cs : Bool) :
    RRes (Option ProfileSummary × Bytes) :=
  if header.versionMasked ≥ 4 then do
    let (n_fields, input) ← readU64le input
    let (n_entries, input) ← readU64le input
    let (fields, input) ← summaryFieldsLoop n_fields 0 input []
    let (detailed_summary, input) ← summaryEntriesLoop n_entries input
    let kind := if use_cs then SummaryKind.csInstr else SummaryKind.instr
    let get := fun f => (alGet fields f).getD 0
    .ok (some ⟨kind, get .totalBlockCount, get .maxBlockCount,
               get .maxInternalBlockCount, get .maxFunctionCount,
               get .totalNumBlocks % 2 ^ 32, get .totalNumFunctions % 2 ^ 32,
               false, (), detailed_summary⟩, input)
  else .ok (none, input)

/-- `IndexedInstrProf::has_format`: exact 8-byte magic. -/
def indexedHasFormat (input : Bytes) : Bool :=
  input.take 8 = [0xff, 0x6c, 0x70, 0x72, 0x6f, 0x66, 0x69, 0x81]

/-- `IndexedInstrProf::parse_header`.  A wrong magic hits the reader's
`todo!()`; an unknown hash type is a failure. -/
def indexedParseHeader (input : Bytes) : RRes (IndexedHeader × Bytes) :=
  if indexedHasFormat input then do
    let (version, bytes) ← readU64le (input.drop 8)
    let (_, bytes) ← readU64le bytes
    let (hash_type, bytes) ← readU64le bytes
    if hash_type ≠ 0 then .err
    else do
      let (hash_offset, bytes) ← readU64le bytes
      let (mem_prof_offset, bytes) ←
        if version ≥ 8 then do
          let (offset, bytes) ← readU64le bytes
          pure (some offset, bytes)
        else pure (none, bytes)
      let (binary_id_offset, bytes) ←
        if version ≥ 9 then do
          let (offset, bytes) ← readU64le bytes
          pure (some offset, bytes)
        else pure (none, bytes)
      let (temporary_prof_traces_offset, bytes) ←
        if version ≥ 10 then do
          let (offset, bytes) ← readU64le bytes
          pure (some offset, bytes)
        else pure (none, bytes)
      .ok (⟨version, hash_offset, mem_prof_offset, binary_id_offset,
            temporary_prof_traces_offset⟩, bytes)
  else .panic

/-- The per-entry body of the indexed reader's `for ((hash, name), v)`
loop: register the name (little-endian) and push the named record. -/
def indexedAddEntry (profile : InstrumentationProfile)
    (entry : (Nat × Bytes) × InstrProfRecord) : InstrumentationProfile :=
  let ((hash, name), v) := entry
  let name_hash := compute_hash name
  { profile with
    symtab := profile.symtab.add_func_name name (some .little)
    records := profile.records.push ⟨some name, some name_hash, some hash, v⟩ }

/-- `IndexedInstrProf::parse_bytes`. -/
def indexedParseBytes (input : Bytes) :
    RRes (InstrumentationProfile × Bytes) := do
  let (header, bytes) ← indexedParseHeader input
  let (_summary, bytes) ← parse_summary bytes header false
  let (_cs_summary, bytes) ←
    if header.is_csir_prof then parse_summary bytes header true
    else pure (none, bytes)
  let profile :=
    { defaultProfile with
      version := some header.version
      has_csir := header.is_csir_prof
      is_ir := header.is_ir_prof }
  let table_start := input.length - bytes.length
  let (table, bytes) ←
    hashTableParse header.version bytes table_start
      (wsub header.hash_offset table_start)
  let profile := table.foldl indexedAddEntry profile
  .ok (profile, bytes)

/-- The hash `Symtab::add_func_name` computes for a given source
endianness (big-endian only when asked for, little-endian otherwise). -/
def endianHash (e : Endianness) (name : Bytes) : Nat :=
  match e with
  | .big => compute_be_hash name
  | .little => compute_hash name

/-- The ASCII bytes of the text profile
`"a\n0x1\n1\n5\na\n0x2\n1\n7"`: the same function name `a` twice, under
function hashes 1 and 2, with counts `[5]` and `[7]`. -/
def c9TextInput : Bytes :=
  [97, 10, 48, 120, 49, 10, 49, 10, 53, 10, 97, 10, 48, 120, 50, 10, 49, 10, 55]

/-- The profile the text reader produces for `c9TextInput`. -/
def c9TextProfile : InstrumentationProfile :=
  match textParseBytes c9TextInput with
  | .ok p => p
  | _ => default

/-- A raw little-endian profile (version 5) whose names section holds the
single name `a`: string ref `(1, 0)` plus the byte `a`, then 5 bytes of
padding to the 8-byte boundary. -/
def c5RawInput : Bytes :=
  [0x81, 0x72, 0x66, 0x6f, 0x72, 0x70, 0x6c, 0xff] ++
  [5, 0, 0, 0, 0, 0, 0, 0] ++
  List.replicate 8 0 ++ List.replicate 8 0 ++ List.replicate 8 0 ++
  List.replicate 8 0 ++ [3, 0, 0, 0, 0, 0, 0, 0] ++ List.replicate 8 0 ++
  List.replicate 8 0 ++ List.replicate 8 0 ++
  [1, 0, 97] ++ List.replicate 5 0

/-- The profile parsed from `c5RawInput`. -/
def c5RawProfile : InstrumentationProfile :=
  match rawParseBytes 8 (fun _ => none) c5RawInput with
  | .ok (p, _) => p
  | _ => default

/-- The leftover bytes of that parse. -/
def c5RawRest : Bytes :=
  match rawParseBytes 8 (fun _ => none) c5RawInput with
  | .ok (_, rest) => rest
  | _ => []

/-- An indexed profile (version 2) whose hash table holds one entry with
key `a`, fn hash 7 and counts `[5]`: one bucket of one item starting at
the payload, bucket header (`num_buckets = num_entries = 1`) at offset
51, `hash_offset = 40 + 51 = 91`. -/
def c5IndexedInput : Bytes :=
  [0xff, 0x6c, 0x70, 0x72, 0x6f, 0x66, 0x69, 0x81] ++
  [2, 0, 0, 0, 0, 0, 0, 0] ++ List.replicate 8 0 ++ List.replicate 8 0 ++
  [91, 0, 0, 0, 0, 0, 0, 0] ++
  [1, 0] ++ List.replicate 8 0 ++ [1, 0, 0, 0, 0, 0, 0, 0] ++
  [24, 0, 0, 0, 0, 0, 0, 0] ++ [97] ++ [7, 0, 0, 0, 0, 0, 0, 0] ++
  [1, 0, 0, 0, 0, 0, 0, 0] ++ [5, 0, 0, 0, 0, 0, 0, 0] ++
  [1, 0, 0, 0, 0, 0, 0, 0] ++ [1, 0, 0, 0, 0, 0, 0, 0]

/-- The profile parsed from `c5IndexedInput`. -/
def c5IndexedProfile : InstrumentationProfile :=
  match indexedParseBytes c5IndexedInput with
  | .ok (p, _) => p
  | _ => default

/-- The leftover bytes of that parse. -/
def c5IndexedRest : Bytes :=
  match indexedParseBytes c5IndexedInput with
  | .ok (_, rest) => rest
  | _ => []

/-- A well-formed one-record profile used as the C9 witness: record `a`
with counts `[3]`, symbol table keyed by the little-endian MD5 of `a`. -/
def c9WitnessProfile : InstrumentationProfile :=
  { defaultProfile with
    records :=
      NamedInstrProfRecords.push default ⟨some [97], none, some 1, ⟨[3], none⟩⟩
    symtab := ⟨[(compute_hash [97], [97])]⟩ }

/-- Little-endian byte string of a `u64` literal (used to build concrete
on-disk inputs). -/
def u64LeBytes (n : Nat) : Bytes :=
  [n &&& 255, n >>> 8 &&& 255, n >>> 16 &&& 255, n >>> 24 &&& 255,
   n >>> 32 &&& 255, n >>> 40 &&& 255, n >>> 48 &&& 255, n >>> 56 &&& 255]

/-- A deflate decoder standing in for inputs that use no compression. -/
def noInflate : Bytes → Option Bytes := fun _ => none

/-- A profile holding exactly one nameless record (counts `[5]`,
`fn_hash` 5), as the raw reader produces when a name reference misses the
symbol table. -/
def c3OtherProfile : InstrumentationProfile :=
  { defaultProfile with
    records := NamedInstrProfRecords.push default ⟨none, none, some 5, ⟨[5], none⟩⟩ }

/-- The concrete coverage mapping of the C7 counterexample: one function
whose only expression refers to the never-defined `Expression(5)`
counter, so the expression stays pending forever. -/
def cm7 : CoverageMapping :=
  { profile := defaultProfile
    mapping_info :=
      [{ cov_map := [(3, [[47, 97]])]
         cov_fun :=
           [{ header := ⟨0, 0, 0, 3⟩
              regions := []
              expressions := [⟨.add, ⟨.expression .add, 5⟩, default⟩] }]
         prof_counts := none
         prof_data := none }] }

/-- The profile of the C1 counterexample: one record (name hash 11, fn
hash 22) with a single instrumentation count of 3. -/
def c1profile : InstrumentationProfile :=
  { defaultProfile with
    records :=
      NamedInstrProfRecords.push default ⟨some [102], some 11, some 22, ⟨[3], none⟩⟩ }

/-- The coverage mapping of the C1 counterexample: the matched function
has TWO regions whose counter is `Expression(Add)` with index 0. -/
def cm1 : CoverageMapping :=
  { profile := c1profile
    mapping_info :=
      [{ cov_map := [(99, [[47, 97]])]
         cov_fun :=
           [{ header := ⟨11, 0, 22, 99⟩
              regions :=
                [⟨.code, ⟨.expression .add, 0⟩, default, 0, 0, ⟨1, 1, 1, 1⟩⟩,
                 ⟨.code, ⟨.expression .add, 0⟩, default, 0, 0, ⟨2, 1, 2, 1⟩⟩]
              expressions :=
                [⟨.add, ⟨.profileInstrumentation, 0⟩,
                  ⟨.profileInstrumentation, 0⟩⟩] }]
         prof_counts := none
         prof_data := none }] }

/-- The report `generate_report` produces for `cm1`. -/
def c1report : CoverageReport :=
  ⟨[([47, 97], ⟨[(⟨1, 1, 1, 1⟩, 6)]⟩)]⟩

/-- A well-formed indexed profile whose on-disk version word is
`2 | (1 << 60)` (byte-coverage flag bit set, masked version 2): header,
reserved word, MD5 hash type, `hash_offset = 80`, the three
version-gated offsets (the unmasked comparison `version >= 8/9/10` sees
the flag bit), then an empty hash table (`num_buckets = 0`). -/
def c4IndexedInput : Bytes :=
  [0xff, 0x6c, 0x70, 0x72, 0x6f, 0x66, 0x69, 0x81] ++ u64LeBytes (2 + 2 ^ 60) ++
  u64LeBytes 0 ++ u64LeBytes 0 ++ u64LeBytes 80 ++ u64LeBytes 0 ++
  u64LeBytes 0 ++ u64LeBytes 0 ++ List.replicate 16 0 ++ u64LeBytes 0 ++
  u64LeBytes 0

/-- The profile parsed from `c4IndexedInput`. -/
def c4IndexedProfile : InstrumentationProfile :=
  match indexedParseBytes c4IndexedInput with
  | .ok (p, _) => p
  | _ => default

/-- The leftover bytes of that parse. -/
def c4IndexedRest : Bytes :=
  match indexedParseBytes c4IndexedInput with
  | .ok (_, rest) => rest
  | _ => []

/-- A well-formed raw (64-bit, little-endian) profile whose version word
is `5 | (1 << 60)`: magic, version, then the eight remaining header
words all zero (no data, counters or names). -/
def c4RawInput : Bytes :=
  [0x81, 0x72, 0x66, 0x6f, 0x72, 0x70, 0x6c, 0xff] ++ u64LeBytes (5 + 2 ^ 60) ++
  u64LeBytes 0 ++ u64LeBytes 0 ++ u64LeBytes 0 ++ u64LeBytes 0 ++
  u64LeBytes 0 ++ u64LeBytes 0 ++ u64LeBytes 0 ++ u64LeBytes 0

/-- The profile parsed from `c4RawInput`. -/
def c4RawProfile : InstrumentationProfile :=
  match rawParseBytes 8 noInflate c4RawInput with
  | .ok (p, _) => p
  | _ => default

/-- The leftover bytes of that parse. -/
def c4RawRest : Bytes :=
  match rawParseBytes 8 noInflate c4RawInput with
  | .ok (_, rest) => rest
  | _ => []

/-! ## General lemmas about the embedding -/

/-- Successful bind splits into a successful first stage and a successful
continuation. -/
theorem bind_eq_ok {α β : Type} {x : RRes α} {f : α → RRes β} {v : β} :
    x >>= f = .ok v ↔ ∃ a, x = .ok a ∧ f a = .ok v := by
  cases x <;> simp [Bind.bind, RRes.bind]

/-- `satAdd64` is addition clipped at `u64::MAX`. -/
theorem satAdd64_eq_min (x y : Nat) : satAdd64 x y = min (x + y) u64Max := by
  simp only [satAdd64]
  split <;> omega

/-- Members of a `btInsert` result come from the old map or are the new
binding. -/
theorem mem_btInsert {V : Type} {m : List (Nat × V)} {k : Nat} {v : V}
    {p : Nat × V} : p ∈ btInsert m k v → p ∈ m ∨ p = (k, v) := by
  induction m with
  | nil =>
    intro h
    simp only [btInsert, List.mem_singleton] at h
    exact Or.inr h
  | cons q rest ih =>
    intro h
    simp only [btInsert] at h
    split at h
    · rw [List.mem_cons] at h
      rcases h with h | h
      · exact Or.inr h
      · exact Or.inl h
    · split at h
      · rw [List.mem_cons] at h
        rcases h with h | h
        · exact Or.inr h
        · exact Or.inl (List.mem_cons_of_mem _ h)
      · rw [List.mem_cons] at h
        rcases h with h | h
        · exact Or.inl (by rw [h]; exact List.mem_cons_self _ _)
        · rcases ih h with h2 | h2
          · exact Or.inl (List.mem_cons_of_mem _ h2)
          · exact Or.inr h2

/-- `listModify` at the modified index. -/
theorem listModify_get_same {α : Type} (l : List α) (i : Nat) (f : α → α) :
    (listModify l i f).get? i = (l.get? i).map f := by
  induction l generalizing i with
  | nil => cases i <;> rfl
  | cons x rest ih =>
    cases i with
    | zero => rfl
    | succ n => simpa [listModify] using ih n

/-- `listModify` away from the modified index. -/
theorem listModify_get_other {α : Type} (l : List α) (i j : Nat) (f : α → α)
    (h : i ≠ j) : (listModify l i f).get? j = l.get? j := by
  induction l generalizing i j with
  | nil => cases i <;> rfl
  | cons x rest ih =>
    cases i with
    | zero =>
      cases j with
      | zero => exact absurd rfl h
      | succ m => rfl
    | succ n =>
      cases j with
      | zero => rfl
      | succ m => simpa [listModify] using ih n m (by omega)

/-- Zipping a list with itself applies the function diagonally. -/
theorem zipWith_self_eq_map {α β : Type} (f : α → α → β) (l : List α) :
    List.zipWith f l l = l.map fun x => f x x := by
  induction l with
  | nil => rfl
  | cons x xs ih => simp [ih]

/-- `mergeByName` on a successful name lookup: modify the indexed record
in place and report success. -/
theorem mergeByName_eq (p : InstrumentationProfile) (name : Bytes)
    (record : NamedInstrProfRecord) (i : Nat)
    (hidx : p.records.name_index name = some i) :
    mergeByName p name record =
      ({ p with
         records :=
           { p.records with
             records :=
               listModify p.records.records i fun rec0 =>
                 { rec0 with record := rec0.record.merge record.record } } },
       true) := by
  simp [mergeByName, hidx]

/-- `merge_record` on a symbol-table hit (by MD5 name hash or by the
`fn_hash` fallback) with a successful name lookup: merge in place,
leaving the name index and the symbol table untouched. -/
theorem merge_record_hit (p : InstrumentationProfile)
    (r : NamedInstrProfRecord) (name : Bytes) (i : Nat)
    (hname : r.name = some name)
    (hhit : p.symtab.contains (compute_hash name) = true ∨
      ∃ a, r.hash = some a ∧ p.symtab.contains a = true)
    (hidx : p.records.name_index name = some i) :
    (p.merge_record r).records.records =
        listModify p.records.records i
          (fun x => { x with record := x.record.merge r.record }) ∧
      (p.merge_record r).records.by_name = p.records.by_name ∧
      (p.merge_record r).symtab = p.symtab := by
  have hm := mergeByName_eq p name r i hidx
  rcases hhit with hc | ⟨a, ha, hca⟩
  · simp [InstrumentationProfile.merge_record, hname, hc, hm]
  · by_cases hc : p.symtab.contains (compute_hash name) = true
    · simp [InstrumentationProfile.merge_record, hname, hc, hm]
    · simp [InstrumentationProfile.merge_record, hname, hc, ha, hca, hm]

/-- `merge_record` on a complete symbol-table miss: append the record and
register its MD5 name hash. -/
theorem merge_record_miss (p : InstrumentationProfile)
    (r : NamedInstrProfRecord) (name : Bytes)
    (hname : r.name = some name)
    (hc : p.symtab.contains (compute_hash name) = false)
    (halt : ∀ a, r.hash = some a → p.symtab.contains a = false) :
    (p.merge_record r).records = p.records.push r ∧
      (p.merge_record r).symtab =
        ⟨btInsert p.symtab.names (compute_hash name) r.name_unchecked⟩ := by
  simp only [InstrumentationProfile.merge_record, hname]
  rw [hc]
  cases hr : r.hash with
  | none => simp
  | some a => simp [halt a hr]

/-! ## Claim theorems -/

/-- C2: merging one instrumentation-profile record into another leaves
the destination's counts unchanged when the two count vectors have
different lengths (the mismatch is non-fatal), and otherwise replaces
each count by the element-wise sum saturated at `u64::MAX`. -/
theorem C2_merge_counts (a b : InstrProfRecord) :
    (a.counts.length ≠ b.counts.length → (a.merge b).counts = a.counts) ∧
    (a.counts.length = b.counts.length →
      (a.merge b).counts =
        List.zipWith (fun x y => min (x + y) u64Max) a.counts b.counts) := by
  constructor
  · intro h
    simp [InstrProfRecord.merge, h]
  · intro h
    have hz : satAdd64 = fun x y => min (x + y) u64Max :=
      funext fun x => funext fun y => satAdd64_eq_min x y
    simp [InstrProfRecord.merge, h, hz]

/-- C2 witness: both branches at concrete records, including saturation. -/
theorem C2_merge_counts_witness :
    (InstrProfRecord.merge ⟨[1, 2], none⟩ ⟨[3], none⟩).counts = [1, 2] ∧
    (InstrProfRecord.merge ⟨[1, u64Max], none⟩ ⟨[3, 5], none⟩).counts =
      List.zipWith (fun x y => min (x + y) u64Max) [1, u64Max] [3, 5] :=
  ⟨(C2_merge_counts ⟨[1, 2], none⟩ ⟨[3], none⟩).1 (by decide),
   (C2_merge_counts ⟨[1, u64Max], none⟩ ⟨[3, 5], none⟩).2 (by decide)⟩

/-- C8: evaluating `merge_site_records` on two sites over the same single
value shows the code saturating-adds the counts into the existing entry
and then ALSO inserts the source entry, leaving two entries for value 1
(counts 12 and 7) where the claim requires exactly one. -/
theorem C8_merge_site_records_duplicate :
    merge_site_records [⟨1, 5⟩] [⟨1, 7⟩] = [⟨1, 12⟩, ⟨1, 7⟩] ∧
    ((merge_site_records [⟨1, 5⟩] [⟨1, 7⟩]).filter
      (fun x => decide (x.value = 1))).length = 2 := by
  constructor <;> rfl

/-- C3 counterexample: merging a profile that contains a (nameless)
record into an empty base leaves the base without any record — the record
is neither merged nor appended, so not every record of the other profile
is accounted for. -/
theorem C3_nameless_record_dropped :
    (defaultProfile.merge c3OtherProfile).records.records = [] ∧
    c3OtherProfile.records.records.length = 1 :=
  ⟨rfl, rfl⟩

/-- C3 (amended): only records carrying a name are accounted for.  For a
named record the base is probed through the symbol table — first under
the little-endian MD5 hash of the name, then under the record's own
`fn_hash` — and on a hit the base record found by name lookup is merged
in place; on a miss the record is appended and the MD5 name hash is
inserted into the symbol table.  Nameless records are dropped. -/
theorem C3_merge_record_characterisation :
    (∀ (p : InstrumentationProfile) (r : NamedInstrProfRecord),
      r.name = none → p.merge_record r = p) ∧
    (∀ (p : InstrumentationProfile) (r : NamedInstrProfRecord)
      (name : Bytes) (i : Nat),
      r.name = some name →
      (p.symtab.contains (compute_hash name) = true ∨
        ∃ a, r.hash = some a ∧ p.symtab.contains a = true) →
      p.records.name_index name = some i →
      (p.merge_record r).records.records =
          listModify p.records.records i
            (fun x => { x with record := x.record.merge r.record }) ∧
        (p.merge_record r).symtab = p.symtab) ∧
    (∀ (p : InstrumentationProfile) (r : NamedInstrProfRecord) (name : Bytes),
      r.name = some name →
      p.symtab.contains (compute_hash name) = false →
      (∀ a, r.hash = some a → p.symtab.contains a = false) →
      (p.merge_record r).records = p.records.push r ∧
        (p.merge_record r).symtab =
          ⟨btInsert p.symtab.names (compute_hash name) r.name_unchecked⟩) := by
  refine ⟨?_, ?_, ?_⟩
  · intro p r hname
    simp [InstrumentationProfile.merge_record, hname]
  · intro p r name i hname hhit hidx
    have h := merge_record_hit p r name i hname hhit hidx
    exact ⟨h.1, h.2.2⟩
  · intro p r name hname hc halt
    exact merge_record_miss p r name hname hc halt

/-- C3 witness: the three behaviours at concrete profiles — a nameless
record is dropped; a named record whose MD5 hash is in the symbol table
merges into the record found by name; an unknown named record is appended
with its hash registered. -/
theorem C3_merge_record_witness :
    (InstrumentationProfile.merge_record defaultProfile
        ⟨none, none, some 5, ⟨[5], none⟩⟩ = defaultProfile) ∧
    (let p : InstrumentationProfile :=
      { defaultProfile with
        records := NamedInstrProfRecords.push default ⟨some [97], none, some 1, ⟨[3], none⟩⟩
        symtab := ⟨[(compute_hash [97], [97])]⟩ }
     (p.merge_record ⟨some [97], none, some 1, ⟨[3], none⟩⟩).records.records =
        listModify p.records.records 0
          (fun x => { x with record := x.record.merge ⟨[3], none⟩ }) ∧
      (p.merge_record ⟨some [97], none, some 1, ⟨[3], none⟩⟩).symtab = p.symtab) ∧
    ((defaultProfile.merge_record ⟨some [97], none, some 2, ⟨[3], none⟩⟩).records =
        defaultProfile.records.push ⟨some [97], none, some 2, ⟨[3], none⟩⟩ ∧
      (defaultProfile.merge_record ⟨some [97], none, some 2, ⟨[3], none⟩⟩).symtab =
        ⟨btInsert defaultProfile.symtab.names (compute_hash [97]) [97]⟩) :=
  ⟨C3_merge_record_characterisation.1 _ _ rfl,
   C3_merge_record_characterisation.2.1 _ _ [97] 0 rfl
     (Or.inl (by decide)) (by decide),
   C3_merge_record_characterisation.2.2 _ _ [97] rfl (by decide)
     (by intro a ha; cases ha; decide)⟩

/-- C6: after the counter/kind prefix of a region, the decoder reads four
LEB128 values `delta_line, column_start, lines_len, column_end` (in that
order), produces the source range `line_start = last_line + delta_line`,
`line_end = line_start + lines_len`, hands `line_start` back as the
`last_line` for the next region of the same file, and maps the encoded
column pair `(0,0)` to `(1, usize::MAX)` while any other pair is kept as
read.  (The overflow bound keeps the `usize` sums below wrap-around.) -/
theorem C6_region_decode
    (bytes r0 r1 r2 r3 r4 : Bytes) (exprs exprs1 : List Expression)
    (flen i last_line : Nat) (pre : Counter × Counter × RegionKind × Nat)
    (d cs ll ce : Nat)
    (hpre : parseRegionPrefix bytes exprs flen = .ok (pre, r0, exprs1))
    (h1 : parseLeb128 r0 = .ok (d, r1))
    (h2 : parseLeb128 r1 = .ok (cs, r2))
    (h3 : parseLeb128 r2 = .ok (ll, r3))
    (h4 : parseLeb128 r3 = .ok (ce, r4))
    (hno : last_line + d + ll < 2 ^ 64) :
    parseOneRegion bytes exprs flen i last_line =
      .ok (⟨pre.2.2.1, pre.1, pre.2.1, i, pre.2.2.2,
            ⟨last_line + d,
             if cs = 0 ∧ ce = 0 then 1 else cs,
             last_line + d + ll,
             if cs = 0 ∧ ce = 0 then usizeMax else ce⟩⟩,
           r4, exprs1, last_line + d) := by
  obtain ⟨c1, c2, kind, efid⟩ := pre
  have hm1 : (last_line + d) % 2 ^ 64 = last_line + d :=
    Nat.mod_eq_of_lt (by omega)
  have hm2 : (last_line + d + ll) % 2 ^ 64 = last_line + d + ll :=
    Nat.mod_eq_of_lt (by omega)
  by_cases hcs : cs = 0 ∧ ce = 0
  · simp only [parseOneRegion, hpre, h1, h2, h3, h4, Bind.bind, RRes.bind]
    simp [hcs.1, hcs.2, hm1, hm2, hcs]
    omega
  · have hb : ¬(cs = 0 && ce = 0) = true := by
      simpa [Decidable.not_and_iff_or_not] using hcs
    simp only [parseOneRegion, hpre, h1, h2, h3, h4, Bind.bind, RRes.bind]
    simp [hm1, hm2, hcs, hb]
    omega

/-- C6 witness: a region with an instrumentation counter (encoded header
`1`) and location bytes `2 0 3 7` decoded at `last_line = 10`. -/
theorem C6_region_decode_witness :
    parseOneRegion [1, 2, 0, 3, 7] [] 1 0 10 =
      .ok (⟨.code, ⟨.profileInstrumentation, 0⟩, default, 0, 0,
            ⟨12, 0, 15, 7⟩⟩, [], [], 12) := by
  have h := C6_region_decode [1, 2, 0, 3, 7] [2, 0, 3, 7] [0, 3, 7] [3, 7] [7] []
    [] [] 1 0 10 (⟨.profileInstrumentation, 0⟩, default, .code, 0) 2 0 3 7
    rfl rfl rfl rfl rfl (by decide)
  simpa using h

/-- C7 (amended): when none of the pending expressions can ever resolve
(each has an operand absent from the working map), the pending loop makes
its bounded number of passes and then hits `assert!(tries_left > 0)`: the
whole evaluation ends in a panic, not an error value. -/
theorem C7_pending_loop_asserts (paths : List RPath)
    (regions : List CounterMappingRegion) :
    ∀ (fuel : Nat) (pending : List (Nat × Expression))
      (ids : List (Counter × Int)) (report : CoverageReport)
      (idx tries : Nat),
      pending ≠ [] →
      (∀ p ∈ pending, alGet ids p.2.lhs = none ∨ alGet ids p.2.rhs = none) →
      pendingLoop paths regions fuel pending ids report idx tries = .panic := by
  intro fuel
  induction fuel with
  | zero =>
    intro pending ids report idx tries hne _
    cases pending with
    | nil => exact absurd rfl hne
    | cons q rest => rfl
  | succ fuel ih =>
    intro pending ids report idx tries hne hyp
    obtain ⟨q, rest, rfl⟩ : ∃ q rest, pending = q :: rest := by
      cases pending with
      | nil => exact absurd rfl hne
      | cons q rest => exact ⟨q, rest, rfl⟩
    by_cases htries : tries = 0
    · simp [pendingLoop, htries]
    · by_cases hwrap : idx ≥ (q :: rest).length
      · obtain ⟨j, e⟩ := q
        have hq := hyp (j, e) (List.mem_cons_self _ _)
        simp only [pendingLoop, if_neg htries, if_pos hwrap,
          List.getD_cons_zero]
        rcases hq with h | h
        · cases hr : alGet ids e.rhs <;>
            simp [h, hr, ih _ ids report 1 (tries - 1) (by simp) hyp]
        · cases hl : alGet ids e.lhs <;>
            simp [h, hl, ih _ ids report 1 (tries - 1) (by simp) hyp]
      · have hlt : idx < (q :: rest).length := by omega
        have hmem : (q :: rest).getD idx (0, default) ∈ q :: rest := by
          rw [List.getD_eq_getElem _ _ hlt]
          exact List.getElem_mem _
        have hq := hyp _ hmem
        rcases hentry : (q :: rest).getD idx (0, default) with ⟨j, e⟩
        rw [hentry] at hq
        simp only [pendingLoop, if_neg htries, if_neg hwrap, hentry]
        rcases hq with h | h
        · cases hr : alGet ids e.rhs <;>
            simp [h, hr, ih _ ids report (idx + 1) tries (by simp) hyp]
        · cases hl : alGet ids e.lhs <;>
            simp [h, hl, ih _ ids report (idx + 1) tries (by simp) hyp]

/-- C7 witness for the amended theorem: a single pending expression whose
left operand is the unresolvable `Expression(5)` counter makes the loop
panic with the source's own bound (`tries_left = |pending| + 1 = 2`). -/
theorem C7_pending_loop_asserts_witness :
    pendingLoop [[47, 97]] [] 16
      [(0, ⟨.add, ⟨.expression .add, 5⟩, default⟩)]
      [(default, 0)] ⟨[]⟩ 0 2 = .panic :=
  C7_pending_loop_asserts [[47, 97]] [] 16
    [(0, ⟨.add, ⟨.expression .add, 5⟩, default⟩)]
    [(default, 0)] ⟨[]⟩ 0 2 (by simp) (by decide)

/-- C7 counterexample: on an input whose pending expression can never
resolve, `generate_report` ends in a panic (the failed
`assert!(tries_left > 0)`), not in an error value surfaced to the
caller. -/
theorem C7_generate_report_panics : cm7.generate_report = .panic := rfl

/-- `pure` is the success constructor. -/
theorem pure_eq_ok {α : Type} (a : α) : (pure a : RRes α) = .ok a := rfl

/-- Wrapping is the identity on in-range `i64` values. -/
theorem wrapI64_eq_self {x : Int} (h1 : -(2 ^ 63) ≤ x) (h2 : x < 2 ^ 63) :
    wrapI64 x = x := by
  have h3 : (x + 2 ^ 63) % 2 ^ 64 = x + 2 ^ 63 :=
    Int.emod_eq_of_lt (by omega) (by omega)
  simp only [wrapI64]
  omega

/-- The `as usize` cast is `toNat` on in-range non-negative values. -/
theorem i64ToUsize_eq_toNat {x : Int} (h1 : 0 ≤ x) (h2 : x < 2 ^ 64) :
    i64ToUsize x = x.toNat := by
  simp only [i64ToUsize]
  rw [Int.emod_eq_of_lt h1 h2]

/-- `hitsInsert` leaves every other range's lookup unchanged. -/
theorem find_hitsInsert_other (loc : SourceLocation) (count : Nat)
    (l2 : SourceLocation) (h : l2 ≠ loc) (hits : List (SourceLocation × Nat)) :
    (hitsInsert loc count hits).find? (fun p => decide (p.1 = l2)) =
      hits.find? (fun p => decide (p.1 = l2)) := by
  induction hits with
  | nil => simp [hitsInsert, List.find?, Ne.symm h]
  | cons q rest ih =>
    obtain ⟨l, c⟩ := q
    by_cases hq : l = loc
    · subst hq
      simp only [hitsInsert, if_pos rfl]
      simp [List.find?, Ne.symm h]
    · simp only [hitsInsert, if_neg hq]
      by_cases hq2 : l = l2
      · simp [List.find?, hq2]
      · simp [List.find?, hq2, ih]

/-- `insertHit` creates or updates exactly the `(path, loc)` entry. -/
theorem getFile_insertHit_self (rp : CoverageReport) (path : RPath)
    (loc : SourceLocation) (count : Nat) :
    (rp.insertHit path loc count).getFile path =
      some (CoverageResult.insert ((rp.getFile path).getD ⟨[]⟩) loc count) := by
  obtain ⟨files⟩ := rp
  induction files with
  | nil => simp [CoverageReport.insertHit, filesInsert, CoverageReport.getFile, List.find?]
  | cons q rest ih =>
    obtain ⟨p, r⟩ := q
    by_cases hp : p = path
    · subst hp
      simp [CoverageReport.insertHit, filesInsert, CoverageReport.getFile, List.find?]
    · simp only [CoverageReport.insertHit, filesInsert, if_neg hp] at *
      simpa [CoverageReport.getFile, List.find?, hp] using ih

/-- `insertHit` does not change the lookup of any other file. -/
theorem getFile_insertHit_other (rp : CoverageReport) (path : RPath)
    (loc : SourceLocation) (count : Nat) (p2 : RPath) (hp : p2 ≠ path) :
    (rp.insertHit path loc count).getFile p2 = rp.getFile p2 := by
  obtain ⟨files⟩ := rp
  simp only [CoverageReport.insertHit, CoverageReport.getFile]
  induction files with
  | nil => simp [filesInsert, List.find?, Ne.symm hp]
  | cons q rest ih =>
    obtain ⟨p, r⟩ := q
    by_cases hq : p = path
    · subst hq
      simp [filesInsert, List.find?, Ne.symm hp]
    · by_cases hq2 : p = p2
      · subst hq2
        simp [filesInsert, if_neg hq, List.find?]
      · simp only [filesInsert, if_neg hq, List.find?, hq2]
        simpa [List.find?, hq2] using ih

/-- `insertHit` does not disturb the lookup of any other `(path, range)`
pair. -/
theorem reportHit_insertHit_other (rp : CoverageReport) (path : RPath)
    (loc : SourceLocation) (count : Nat) (p2 : RPath) (l2 : SourceLocation)
    (h : ¬(p2 = path ∧ l2 = loc)) :
    reportHit (rp.insertHit path loc count) p2 l2 = reportHit rp p2 l2 := by
  by_cases hp : p2 = path
  · subst hp
    have hl2 : l2 ≠ loc := fun hc => h ⟨rfl, hc⟩
    rw [reportHit, getFile_insertHit_self]
    cases hfile : rp.getFile p2 with
    | none =>
      simp [reportHit, hfile, CoverageResult.insert, hitsInsert, List.find?,
        Ne.symm hl2]
    | some r =>
      simp [reportHit, hfile, CoverageResult.insert,
        find_hitsInsert_other loc count l2 hl2]
  · simp [reportHit, getFile_insertHit_other rp path loc count p2 hp]

/-- C1 (amended): for a function record matched to a profile record and
an expression at index `i` whose two operands are resolvable in the
working map, the evaluator records `count = lhs - rhs` (Subtract) or
`lhs + rhs` (Add) under `Expression(i)` and emits that count into the
report for the FIRST region of the function whose counter is that
expression, if any — every other region, even one carrying the same
expression counter, is left untouched. -/
theorem C1_expression_resolution
    (paths : List RPath) (regions : List CounterMappingRegion)
    (region_ids : List (Counter × Int)) (report : CoverageReport)
    (pending : List (Nat × Expression)) (i : Nat) (e : Expression)
    (l r count : Int)
    (hl : alGet region_ids e.lhs = some l)
    (hr : alGet region_ids e.rhs = some r)
    (hcount : count = match e.kind with | .subtract => l - r | .add => l + r)
    (hlo : -(2 ^ 63) ≤ count) (hhi : count < 2 ^ 63) :
    (findExprRegion regions i = none →
      exprPassStep paths regions (region_ids, report, pending) (i, e) =
        .ok (alInsert region_ids ⟨.expression e.kind, i⟩ count, report, pending)) ∧
    (∀ er path, findExprRegion regions i = some er →
      paths.get? er.file_id = some path →
      0 ≤ count →
      exprPassStep paths regions (region_ids, report, pending) (i, e) =
        .ok (alInsert region_ids ⟨.expression e.kind, i⟩ count,
             report.insertHit path er.loc count.toNat, pending) ∧
      ∀ p2 l2, ¬(p2 = path ∧ l2 = er.loc) →
        reportHit (report.insertHit path er.loc count.toNat) p2 l2 =
          reportHit report p2 l2) := by
  have hwrap :
      (match e.kind with
        | ExprKind.subtract => subI64 l r
        | ExprKind.add => addI64 l r) = count := by
    cases hk : e.kind <;>
      simp only [subI64, addI64] <;>
      rw [wrapI64_eq_self (by simp [hcount, hk] at hlo ⊢; omega)
            (by simp [hcount, hk] at hhi ⊢; omega)] <;>
      simp [hcount, hk]
  constructor
  · intro hnone
    simp [exprPassStep, hl, hr, resolveExpr, hwrap, hnone, Bind.bind, RRes.bind,
      pure_eq_ok]
  · intro er path hsome hpath hnonneg
    have hcast : i64ToUsize count = count.toNat :=
      i64ToUsize_eq_toNat hnonneg (by omega)
    have hpath2 : paths[er.file_id]? = some path := by
      simpa [List.get?_eq_getElem?] using hpath
    constructor
    · simp [exprPassStep, hl, hr, resolveExpr, hwrap, hsome, hpath, hpath2,
        hcast, Bind.bind, RRes.bind, pure_eq_ok]
    · intro p2 l2 hne
      exact reportHit_insertHit_other report path er.loc count.toNat p2 l2 hne

/-- C1 witness: a concrete add-expression over `Instrumentation(0) = 3`
resolves to 6 and is emitted into the first of the two matching regions. -/
theorem C1_expression_resolution_witness :
    exprPassStep [[47, 97]]
        [⟨.code, ⟨.expression .add, 0⟩, default, 0, 0, ⟨1, 1, 1, 1⟩⟩,
         ⟨.code, ⟨.expression .add, 0⟩, default, 0, 0, ⟨2, 1, 2, 1⟩⟩]
        ([(default, 0), (⟨.profileInstrumentation, 0⟩, 3)], ⟨[]⟩, [])
        (0, ⟨.add, ⟨.profileInstrumentation, 0⟩, ⟨.profileInstrumentation, 0⟩⟩) =
      .ok (alInsert [(default, 0), (⟨.profileInstrumentation, 0⟩, 3)]
             ⟨.expression .add, 0⟩ 6,
           CoverageReport.insertHit ⟨[]⟩ [47, 97] ⟨1, 1, 1, 1⟩ 6, []) := by
  have h :=
    (C1_expression_resolution [[47, 97]]
      [⟨.code, ⟨.expression .add, 0⟩, default, 0, 0, ⟨1, 1, 1, 1⟩⟩,
       ⟨.code, ⟨.expression .add, 0⟩, default, 0, 0, ⟨2, 1, 2, 1⟩⟩]
      [(default, 0), (⟨.profileInstrumentation, 0⟩, 3)] ⟨[]⟩ []
      0 ⟨.add, ⟨.profileInstrumentation, 0⟩, ⟨.profileInstrumentation, 0⟩⟩
      3 3 6 (by decide) (by decide) (by decide) (by decide) (by decide)).2
      ⟨.code, ⟨.expression .add, 0⟩, default, 0, 0, ⟨1, 1, 1, 1⟩⟩
      [47, 97] (by decide) (by decide) (by decide)
  simpa using h.1

/-- C1 counterexample: both regions of `cm1`'s function carry the
resolved counter `Expression(0)` (count 6), yet the report holds the
count only for the first region's range `(1,1)-(1,1)`; the second
region's range `(2,1)-(2,1)` is absent, refuting "emits that count ...
for every region whose counter is that expression". -/
theorem C1_only_first_region_emitted :
    cm1.generate_report = .ok c1report ∧
    reportHit c1report [47, 97] ⟨1, 1, 1, 1⟩ = some 6 ∧
    reportHit c1report [47, 97] ⟨2, 1, 2, 1⟩ = none :=
  ⟨rfl, rfl, rfl⟩

/-- Registering table entries does not touch the version or flag fields. -/
theorem foldl_indexedAddEntry_fields (table : HashTable)
    (p : InstrumentationProfile) :
    (table.foldl indexedAddEntry p).version = p.version ∧
    (table.foldl indexedAddEntry p).is_ir = p.is_ir ∧
    (table.foldl indexedAddEntry p).has_csir = p.has_csir ∧
    (table.foldl indexedAddEntry p).is_byte_coverage = p.is_byte_coverage ∧
    (table.foldl indexedAddEntry p).fn_entry_only = p.fn_entry_only ∧
    (table.foldl indexedAddEntry p).memory_profiling = p.memory_profiling := by
  induction table generalizing p with
  | nil => exact ⟨rfl, rfl, rfl, rfl, rfl, rfl⟩
  | cons q rest ih =>
    obtain ⟨⟨hash, name⟩, v⟩ := q
    simpa [indexedAddEntry] using ih (indexedAddEntry p ((hash, name), v))

/-- C4: the version and flag extraction of the two binary readers.  The
raw reader stores the on-disk version word masked by
`!0xFF00_0000_0000_0000` and reads IR/CSIR from bits 56–57 always, but
populates the byte-coverage, function-entry-only and memory-profile
flags from bits 60–62 only when the masked version exceeds 7.  The
indexed reader stores the UNMASKED version word, reads IR/CSIR from bits
56–57, and never sets the other three flags. -/
theorem C4_version_and_flags :
    (∀ (w : Nat) (inflate : Bytes → Option Bytes) (input : Bytes)
      (p : InstrumentationProfile) (rest : Bytes),
      rawParseBytes w inflate input = .ok (p, rest) →
      ∃ (header : RawHeader) (bytes0 : Bytes),
        rawParseHeader w input = .ok (header, bytes0) ∧
        p.version = some (header.version &&& (2 ^ 56 - 1)) ∧
        p.is_ir = header.ir_profile ∧
        p.has_csir = header.csir_profile ∧
        (header.versionMasked > 7 →
          p.is_byte_coverage = header.has_byte_coverage ∧
          p.fn_entry_only = header.function_entry_only ∧
          p.memory_profiling = header.memory_profile) ∧
        (header.versionMasked ≤ 7 →
          p.is_byte_coverage = false ∧
          p.fn_entry_only = false ∧
          p.memory_profiling = false)) ∧
    (∀ (input : Bytes) (p : InstrumentationProfile) (rest : Bytes),
      indexedParseBytes input = .ok (p, rest) →
      ∃ (header : IndexedHeader) (bytes0 : Bytes),
        indexedParseHeader input = .ok (header, bytes0) ∧
        p.version = some header.version ∧
        p.is_ir = header.is_ir_prof ∧
        p.has_csir = header.is_csir_prof ∧
        p.is_byte_coverage = false ∧
        p.fn_entry_only = false ∧
        p.memory_profiling = false) := by
  constructor
  · intro w inflate input p rest h
    rw [rawParseBytes] at h
    split at h
    · exact absurd h (by simp)
    · rcases bind_eq_ok.mp h with ⟨⟨header, bytes⟩, hh, h⟩
      refine ⟨header, bytes, hh, ?_⟩
      dsimp only at h
      split at h
      · exact absurd h (by simp)
      · rcases bind_eq_ok.mp h with ⟨⟨data_section, i1⟩, _, h⟩
        rcases bind_eq_ok.mp h with ⟨⟨u1, i2⟩, _, h⟩
        rcases bind_eq_ok.mp h with ⟨⟨counters, i3⟩, _, h⟩
        rcases bind_eq_ok.mp h with ⟨⟨u2, i4⟩, _, h⟩
        rcases bind_eq_ok.mp h with ⟨⟨symtab, i5⟩, _, h⟩
        rcases bind_eq_ok.mp h with ⟨⟨u3, i6⟩, _, h⟩
        rcases bind_eq_ok.mp h with ⟨⟨records, i7⟩, _, h⟩
        rw [RRes.ok.injEq, Prod.mk.injEq] at h
        obtain ⟨hp, -⟩ := h
        subst hp
        by_cases hv : header.versionMasked > 7
        · simp only [if_pos hv]
          exact ⟨rfl, trivial, trivial, fun _ => ⟨trivial, trivial, trivial⟩,
            fun hle => absurd hv (by omega)⟩
        · simp only [if_neg hv]
          exact ⟨rfl, trivial, trivial, fun hgt => absurd hgt hv,
            fun _ => ⟨rfl, rfl, rfl⟩⟩
  · intro input p rest h
    rw [indexedParseBytes] at h
    rcases bind_eq_ok.mp h with ⟨⟨header, bytes⟩, hh, h⟩
    refine ⟨header, bytes, hh, ?_⟩
    dsimp only at h
    rcases bind_eq_ok.mp h with ⟨⟨s1, b1⟩, _, h⟩
    split at h <;>
    · rcases bind_eq_ok.mp h with ⟨⟨s2, b2⟩, _, h⟩
      rcases bind_eq_ok.mp h with ⟨⟨table, b3⟩, _, h⟩
      rw [RRes.ok.injEq, Prod.mk.injEq] at h
      obtain ⟨hp, -⟩ := h
      subst hp
      have hf := foldl_indexedAddEntry_fields table
        { defaultProfile with
          version := some header.version
          has_csir := header.is_csir_prof
          is_ir := header.is_ir_prof }
      exact ⟨hf.1, hf.2.1, hf.2.2.1, hf.2.2.2.1, hf.2.2.2.2.1, hf.2.2.2.2.2⟩

/-- C4 counterexample: the indexed reader stores the UNMASKED on-disk
version word (`2 + 2⁶⁰`, not the masked value 2) and leaves the
byte-coverage flag clear even though bit 60 of the word is set. -/
theorem C4_indexed_version_not_masked :
    indexedParseBytes c4IndexedInput = .ok (c4IndexedProfile, c4IndexedRest) ∧
    c4IndexedProfile.version = some (2 + 2 ^ 60) ∧
    maskVersion (2 + 2 ^ 60) = 2 ∧
    c4IndexedProfile.is_byte_coverage = false :=
  ⟨rfl, rfl, by decide, rfl⟩

/-- C4 witness: the amended statement applied to the two concrete
parses — the raw profile with version word `5 | 1<<60` (masked version
5, so bits 60–62 are ignored) and the indexed profile with version word
`2 | 1<<60` (stored unmasked). -/
theorem C4_version_and_flags_witness :
    (∃ (header : RawHeader) (bytes0 : Bytes),
      rawParseHeader 8 c4RawInput = .ok (header, bytes0) ∧
      c4RawProfile.version = some (header.version &&& (2 ^ 56 - 1)) ∧
      c4RawProfile.is_ir = header.ir_profile ∧
      c4RawProfile.has_csir = header.csir_profile ∧
      (header.versionMasked > 7 →
        c4RawProfile.is_byte_coverage = header.has_byte_coverage ∧
        c4RawProfile.fn_entry_only = header.function_entry_only ∧
        c4RawProfile.memory_profiling = header.memory_profile) ∧
      (header.versionMasked ≤ 7 →
        c4RawProfile.is_byte_coverage = false ∧
        c4RawProfile.fn_entry_only = false ∧
        c4RawProfile.memory_profiling = false)) ∧
    (∃ (header : IndexedHeader) (bytes0 : Bytes),
      indexedParseHeader c4IndexedInput = .ok (header, bytes0) ∧
      c4IndexedProfile.version = some header.version ∧
      c4IndexedProfile.is_ir = header.is_ir_prof ∧
      c4IndexedProfile.has_csir = header.is_csir_prof ∧
      c4IndexedProfile.is_byte_coverage = false ∧
      c4IndexedProfile.fn_entry_only = false ∧
      c4IndexedProfile.memory_profiling = false) :=
  ⟨C4_version_and_flags.1 8 noInflate c4RawInput c4RawProfile c4RawRest rfl,
   C4_version_and_flags.2 c4IndexedInput c4IndexedProfile c4IndexedRest rfl⟩

/-- The engine of the self-merge claim: folding `merge_record` over a
suffix of the base's own records (each record named, each name resolving
to its own position, each hitting the symbol table) doubles the counts at
the positions of the suffix and leaves the earlier positions alone. -/
theorem merge_fold_doubles (p : InstrumentationProfile) :
    ∀ (todo : List NamedInstrProfRecord) (q : InstrumentationProfile)
      (base : Nat),
      q.records.by_name = p.records.by_name →
      q.symtab = p.symtab →
      (∀ k r, todo.get? k = some r →
        ∃ name, r.name = some name ∧
          p.records.name_index name = some (base + k) ∧
          (p.symtab.contains (compute_hash name) = true ∨
            ∃ a, r.hash = some a ∧ p.symtab.contains a = true)) →
      (∀ k, q.records.records.get? (base + k) = todo.get? k) →
      (∀ k r, todo.get? k = some r →
        ((todo.foldl InstrumentationProfile.merge_record q).records.records.get?
            (base + k)).map (fun r2 => r2.record.counts) =
          some (List.zipWith satAdd64 r.record.counts r.record.counts)) ∧
      (∀ i, i < base →
        (todo.foldl InstrumentationProfile.merge_record q).records.records.get? i =
          q.records.records.get? i) := by
  intro todo
  induction todo with
  | nil =>
    intro q base _ _ _ _
    exact ⟨fun k r h => by simp at h, fun i _ => rfl⟩
  | cons r rest ih =>
    intro q base hby hsym hyp hagree
    obtain ⟨name, hname, hidx, hhit⟩ := hyp 0 r rfl
    have hidx_q : q.records.name_index name = some (base + 0) := by
      rw [NamedInstrProfRecords.name_index, hby]
      rw [NamedInstrProfRecords.name_index] at hidx
      rw [hidx, Nat.add_zero]
    have hhit_q : q.symtab.contains (compute_hash name) = true ∨
        ∃ a, r.hash = some a ∧ q.symtab.contains a = true := by
      rw [hsym]; exact hhit
    have hstep := merge_record_hit q r name (base + 0) hname hhit_q hidx_q
    have hby2 : (q.merge_record r).records.by_name = p.records.by_name :=
      hstep.2.1.trans hby
    have hsym2 : (q.merge_record r).symtab = p.symtab := hstep.2.2.trans hsym
    have hyp2 : ∀ k r2, rest.get? k = some r2 →
        ∃ name2, r2.name = some name2 ∧
          p.records.name_index name2 = some (base + 1 + k) ∧
          (p.symtab.contains (compute_hash name2) = true ∨
            ∃ a, r2.hash = some a ∧ p.symtab.contains a = true) := by
      intro k r2 h
      obtain ⟨name2, h1, h2, h3⟩ := hyp (k + 1) r2 (by simpa using h)
      refine ⟨name2, h1, ?_, h3⟩
      rw [h2]
      exact congrArg some (by omega)
    have hagree2 : ∀ k,
        (q.merge_record r).records.records.get? (base + 1 + k) = rest.get? k := by
      intro k
      rw [hstep.1, listModify_get_other _ _ _ _ (by omega)]
      have h := hagree (k + 1)
      rw [show base + (k + 1) = base + 1 + k by omega] at h
      simpa using h
    obtain ⟨ihA, ihB⟩ := ih (q.merge_record r) (base + 1) hby2 hsym2 hyp2 hagree2
    have hfold : (r :: rest).foldl InstrumentationProfile.merge_record q =
        rest.foldl InstrumentationProfile.merge_record (q.merge_record r) := rfl
    constructor
    · intro k r2 hk
      cases k with
      | zero =>
        have hr2 : r2 = r := by simpa using hk.symm
        subst hr2
        rw [hfold, ihB (base + 0) (by omega), hstep.1, listModify_get_same]
        have hq0 : q.records.records.get? (base + 0) = some r2 := by
          rw [hagree 0]; rfl
        rw [hq0]
        have hc : (r2.record.merge r2.record).counts =
            List.zipWith satAdd64 r2.record.counts r2.record.counts := by
          simp [InstrProfRecord.merge]
        simp [hc]
      | succ k =>
        have h := ihA k r2 (by simpa using hk)
        rw [show base + 1 + k = base + (k + 1) by omega] at h
        rw [hfold]
        exact h
    · intro i hi
      rw [hfold, ihB i (by omega), hstep.1,
        listModify_get_other _ _ _ _ (by omega)]

/-- C9 (amended): for a profile whose records each carry a distinct name
that resolves—through the symbol table and the name index—back to the
record itself (as the parsers produce when no two records share a name),
merging the profile with itself doubles every record's counts
element-wise, clipped by saturation at `u64::MAX`. -/
theorem C9_merge_self_doubles (p : InstrumentationProfile)
    (hyp : ∀ i r, p.records.records.get? i = some r →
      ∃ name, r.name = some name ∧ p.records.name_index name = some i ∧
        (p.symtab.contains (compute_hash name) = true ∨
          ∃ a, r.hash = some a ∧ p.symtab.contains a = true)) :
    ∀ i r, p.records.records.get? i = some r →
      ((p.merge p).records.records.get? i).map (fun r2 => r2.record.counts) =
        some (r.record.counts.map fun c => min (c + c) u64Max) := by
  intro i r h
  have hm : p.merge p = p.records.records.foldl InstrumentationProfile.merge_record p := by
    rw [InstrumentationProfile.merge]
    cases hv : p.version <;> simp [hv]
  have hfold := merge_fold_doubles p p.records.records p 0 rfl rfl
    (fun k r2 hk => by simpa using hyp k r2 hk)
    (fun k => by simp)
  have hres := hfold.1 i r h
  rw [Nat.zero_add] at hres
  have hmap : r.record.counts.map (fun c => satAdd64 c c) =
      r.record.counts.map (fun c => min (c + c) u64Max) :=
    List.map_congr_left fun c _ => satAdd64_eq_min c c
  rw [hm, hres, zipWith_self_eq_map, hmap]

/-- C9 witness: the amended statement at a concrete one-record profile
(counts `[3]`, doubling to `[6]`). -/
theorem C9_merge_self_doubles_witness :
    ((c9WitnessProfile.merge c9WitnessProfile).records.records.get? 0).map
        (fun r2 => r2.record.counts) =
      some ([3].map fun c => min (c + c) u64Max) :=
  C9_merge_self_doubles c9WitnessProfile
    (by
      intro i r h
      match i with
      | 0 =>
        refine ⟨[97], ?_, by decide, Or.inl (by decide)⟩
        have hr : r = ⟨some [97], none, some 1, ⟨[3], none⟩⟩ := by
          simpa [c9WitnessProfile, NamedInstrProfRecords.push] using h.symm
        rw [hr]
      | n + 1 =>
        have hn : c9WitnessProfile.records.records.get? (n + 1) = none := by
          show ([⟨some [97], none, some 1, ⟨[3], none⟩⟩] :
            List NamedInstrProfRecord).get? (n + 1) = none
          simp
        rw [hn] at h
        cases h)
    0 ⟨some [97], none, some 1, ⟨[3], none⟩⟩ rfl

/-- C9 counterexample: the text profile `c9TextInput` parses successfully
and holds two records for the same function name `a` (hashes 1 and 2,
counts `[5]` and `[7]`).  Merging the profile with itself yields counts
`[19]` for `a` (the by-name slot absorbs both merges), not the doubled
`[14]` the claim requires. -/
theorem C9_merge_self_counterexample :
    textParseBytes c9TextInput = .ok c9TextProfile ∧
    (c9TextProfile.get_record [97]).map (fun r => r.record.counts) = some [7] ∧
    ((c9TextProfile.merge c9TextProfile).get_record [97]).map
        (fun r => r.record.counts) = some [19] ∧
    (some [19] : Option (List Nat)) ≠ some ([7].map fun c => min (c + c) u64Max) :=
  ⟨rfl, rfl, by decide, by decide⟩

/-- `add_func_name` stores under the endianness-dependent MD5 hash. -/
theorem add_func_name_names (st : Symtab) (name : Bytes) (e : Endianness) :
    (st.add_func_name name (some e)).names =
      btInsert st.names (endianHash e name) name := by
  cases e <;> rfl

/-- `add_func_name` preserves the hash-of-name invariant. -/
theorem symtabOk_add (e : Endianness) (st : Symtab) (name : Bytes)
    (h : ∀ q ∈ st.names, q.1 = endianHash e q.2) :
    ∀ q ∈ (st.add_func_name name (some e)).names, q.1 = endianHash e q.2 := by
  intro q hq
  rw [add_func_name_names] at hq
  rcases mem_btInsert hq with hm | hm
  · exact h q hm
  · subst hm
    rfl

/-- Adding a batch of names preserves the hash-of-name invariant. -/
theorem symtabOk_fold (e : Endianness) (names : List Bytes) :
    ∀ (st : Symtab),
      (∀ q ∈ st.names, q.1 = endianHash e q.2) →
      ∀ q ∈ (names.foldl (fun st name => st.add_func_name name (some e)) st).names,
        q.1 = endianHash e q.2 := by
  induction names with
  | nil => intro st h; exact h
  | cons n rest ih =>
    intro st h
    exact ih (st.add_func_name n (some e)) (symtabOk_add e st n h)

/-- The raw names loop only ever adds names through `add_func_name`, so
it preserves the hash-of-name invariant. -/
theorem rawNamesLoop_ok (inflate : Bytes → Option Bytes) (e : Endianness)
    (end_length : Nat) :
    ∀ (fuel : Nat) (input : Bytes) (st st2 : Symtab) (rest : Bytes),
      rawNamesLoop inflate e end_length fuel input st = .ok (st2, rest) →
      (∀ q ∈ st.names, q.1 = endianHash e q.2) →
      ∀ q ∈ st2.names, q.1 = endianHash e q.2 := by
  intro fuel
  induction fuel with
  | zero =>
    intro input st st2 rest h hok
    rw [rawNamesLoop] at h
    split at h
    · cases h
    · rw [RRes.ok.injEq, Prod.mk.injEq] at h
      obtain ⟨h1, -⟩ := h
      exact h1 ▸ hok
  | succ fuel ih =>
    intro input st st2 rest h hok
    rw [rawNamesLoop] at h
    split at h
    · split at h
      · exact ih _ _ _ _ h (symtabOk_fold e _ st hok)
      · cases h
      · cases h
    · rw [RRes.ok.injEq, Prod.mk.injEq] at h
      obtain ⟨h1, -⟩ := h
      exact h1 ▸ hok

/-- Registering table entries preserves the little-endian hash-of-name
invariant of the symbol table. -/
theorem foldl_indexedAddEntry_symtab (table : HashTable) :
    ∀ (p : InstrumentationProfile),
      (∀ q ∈ p.symtab.names, q.1 = compute_hash q.2) →
      ∀ q ∈ (table.foldl indexedAddEntry p).symtab.names, q.1 = compute_hash q.2 := by
  induction table with
  | nil => intro p h; exact h
  | cons entry rest ih =>
    intro p h
    obtain ⟨⟨hash, name⟩, v⟩ := entry
    refine ih (indexedAddEntry p ((hash, name), v)) ?_
    intro q hq
    exact symtabOk_add .little p.symtab name h q hq

/-- C5 (amended): for every profile produced by the RAW or the INDEXED
binary readers, every `(hash, name)` entry of the symbol table satisfies
`hash` = first 8 bytes of `MD5(name)` interpreted as a `u64` in the
source profile's endianness (always little-endian for indexed profiles).
The text reader is excluded: it keys names by the record's function hash
instead (see the counterexample). -/
theorem C5_symtab_hashes :
    (∀ (w : Nat) (inflate : Bytes → Option Bytes) (input : Bytes)
      (p : InstrumentationProfile) (rest : Bytes),
      rawParseBytes w inflate input = .ok (p, rest) →
      ∃ (header : RawHeader) (bytes0 : Bytes),
        rawParseHeader w input = .ok (header, bytes0) ∧
        ∀ q ∈ p.symtab.names, q.1 = endianHash header.endianness q.2) ∧
    (∀ (input : Bytes) (p : InstrumentationProfile) (rest : Bytes),
      indexedParseBytes input = .ok (p, rest) →
      ∀ q ∈ p.symtab.names, q.1 = compute_hash q.2) := by
  constructor
  · intro w inflate input p rest h
    rw [rawParseBytes] at h
    split at h
    · exact absurd h (by simp)
    · rcases bind_eq_ok.mp h with ⟨⟨header, bytes⟩, hh, h⟩
      refine ⟨header, bytes, hh, ?_⟩
      dsimp only at h
      split at h
      · exact absurd h (by simp)
      · rcases bind_eq_ok.mp h with ⟨⟨data_section, i1⟩, _, h⟩
        rcases bind_eq_ok.mp h with ⟨⟨u1, i2⟩, _, h⟩
        rcases bind_eq_ok.mp h with ⟨⟨counters, i3⟩, _, h⟩
        rcases bind_eq_ok.mp h with ⟨⟨u2, i4⟩, _, h⟩
        rcases bind_eq_ok.mp h with ⟨⟨symtab, i5⟩, hn, h⟩
        rcases bind_eq_ok.mp h with ⟨⟨u3, i6⟩, _, h⟩
        rcases bind_eq_ok.mp h with ⟨⟨records, i7⟩, _, h⟩
        rw [RRes.ok.injEq, Prod.mk.injEq] at h
        obtain ⟨hp, -⟩ := h
        subst hp
        exact rawNamesLoop_ok inflate header.endianness _ _ _ _ _ _ hn
          (fun q hq => absurd hq (by simp))
  · intro input p rest h
    rw [indexedParseBytes] at h
    rcases bind_eq_ok.mp h with ⟨⟨header, bytes⟩, hh, h⟩
    dsimp only at h
    rcases bind_eq_ok.mp h with ⟨⟨s1, b1⟩, _, h⟩
    split at h <;>
    · rcases bind_eq_ok.mp h with ⟨⟨s2, b2⟩, _, h⟩
      rcases bind_eq_ok.mp h with ⟨⟨table, b3⟩, _, h⟩
      rw [RRes.ok.injEq, Prod.mk.injEq] at h
      obtain ⟨hp, -⟩ := h
      subst hp
      exact foldl_indexedAddEntry_symtab table _ (fun q hq => nomatch hq)

/-- C5 witness: the amended statement at a concrete raw profile and a
concrete indexed profile, each carrying the single name `a`. -/
theorem C5_symtab_hashes_witness :
    (∃ (header : RawHeader) (bytes0 : Bytes),
      rawParseHeader 8 c5RawInput = .ok (header, bytes0) ∧
      ∀ q ∈ c5RawProfile.symtab.names, q.1 = endianHash header.endianness q.2) ∧
    (∀ q ∈ c5IndexedProfile.symtab.names, q.1 = compute_hash q.2) :=
  ⟨C5_symtab_hashes.1 8 (fun _ => none) c5RawInput c5RawProfile c5RawRest rfl,
   C5_symtab_hashes.2 c5IndexedInput c5IndexedProfile c5IndexedRest rfl⟩

/-- C5 counterexample: the text reader keys `a` under its function
hashes 1 and 2 as written in the profile, and neither equals either
truncated MD5 of `a`, so "every entry of every parser's symbol table
satisfies the MD5 property" fails for the text reader. -/
theorem C5_text_symtab_not_md5 :
    textParseBytes c9TextInput = .ok c9TextProfile ∧
    (1, [97]) ∈ c9TextProfile.symtab.names ∧
    compute_hash [97] ≠ 1 ∧ compute_be_hash [97] ≠ 1 :=
  ⟨rfl, by decide, by decide, by decide⟩

/-- C10: `PathRemapping::from_str` panics (index out of bounds on
`paths[1]`) for a non-empty input without a comma, while the empty string
and two-path inputs return `Result` values. -/
theorem C10_from_str_panics :
    PathRemapping.from_str [102, 111, 111] = RRes.panic ∧
    PathRemapping.from_str [] =
      RRes.ok (Except.error RemappingParseError.missingSourcePath) ∧
    PathRemapping.from_str [97, 44, 98] =
      RRes.ok (Except.ok ⟨[97], [98]⟩) :=
  ⟨rfl, rfl, rfl⟩

end LPP
